import Mathlib

/-!
Verification development for the saga coordination engine
(`agentic-sage-coordinator`).  The definitions below are a shallow
embedding of the phase-5 `SagaExecutor` (executor source file), together
with the builder/serialization helpers it uses.  Stateful TypeScript code
becomes explicit state passing over an `EngineState`; every observable
action (checkpoint-store call, step invocation, hook invocation, backoff
sleep, context write) is recorded in an event trace so that ordering and
"called exactly once" properties can be stated as facts about the trace.

Modelling conventions, recorded once here:
- Caller-supplied `execute(ctx)` is a pure function of the results map.
  `compensate(ctx, result)` is additionally indexed by the attempt number
  (how many times it has been called for this step in this run): this is
  the deterministic abstraction of an effectful function that may fail on
  some invocations and succeed on others.
- `JSON.stringify` success or failure is a heap property of the JS value
  (circular references etc.) that a shallow embedding cannot compute, so a
  `Value` carries a `serializable` flag; `isJsonSerializable`/
  `assertJsonSerializable` consult it exactly where the source calls them.
- `Promise.allSettled` over the members of a concurrent group is modelled
  by running each member's body to completion in the order given by a
  schedule parameter (any permutation of the member indices); the settled
  array is indexed by declaration position, as in the source.  The
  post-settlement loop is the source's loop over `settled` in declaration
  order.
-/

namespace SagaExec

/-- A checkpointable step result.  `tag` identifies the value;
`serializable` abstracts whether `JSON.stringify` would succeed on it. -/
structure Value where
  tag : String
  serializable : Bool
deriving DecidableEq, Repr

/-- The JS `undefined` value (`JSON.stringify(undefined)` does not throw). -/
def Value.undef : Value := ⟨"undefined", true⟩

/-- Errors thrown inside the engine: ordinary caller errors,
`PendingApprovalError`, `SerializationError`, `SagaCompensationError`,
and the two plain `Error`s thrown by `resume`. -/
inductive SagaError where
  | ordinary (msg : String)
  | pendingApproval
  | serialization (stepName : String)
  | compensation (stepName : String) (cause : SagaError)
  | noPendingStep
  | stepNotFound (stepName : String)
deriving DecidableEq, Repr

/-- Status component of a persisted `StepState`. -/
inductive StepStatus where
  | completed
  | compensated
  | pending_approval
deriving DecidableEq, Repr

/-- Persisted state of a single step operation (`StepState` in the source). -/
structure StepState where
  status : StepStatus
  result : Option Value
deriving DecidableEq, Repr

/-- Outcome of a caller-supplied `execute` function: a resolved value or a
thrown error (`PendingApprovalError` is `SagaError.pendingApproval`). -/
inductive ExecOutcome where
  | ok (v : Value)
  | error (e : SagaError)
deriving DecidableEq, Repr

/-- The results map of the run context (`context.results`), as an
insertion-ordered association list with unique keys. -/
abbrev Results := List (String × Value)

/-- The checkpoint store contents of the state adapter (`InMemoryAdapter`
holds a `Map<string, StepState>`). -/
abbrev Store := List (String × StepState)

/-- Association-list lookup (first binding wins; keys are kept unique by
`aset`). -/
def alookup {α : Type} : List (String × α) → String → Option α
  | [], _ => none
  | (k, v) :: rest, key => if k = key then some v else alookup rest key

/-- Association-list update with `Map.set` semantics: replace the existing
binding in place, else append. -/
def aset {α : Type} : List (String × α) → String → α → List (String × α)
  | [], key, v => [(key, v)]
  | (k, w) :: rest, key, v =>
    if k = key then (key, v) :: rest else (k, w) :: aset rest key v

/-- Per-step metadata (`SagaStepMetadata` in the source). -/
structure SagaStepMetadata where
  description : Option String
  maxRetries : Option Nat
  compensationRetries : Option Nat
  skipOnDryRun : Option Bool
  idempotencyKey : Option String
deriving DecidableEq, Repr

/-- Metadata with every field absent. -/
def noMeta : SagaStepMetadata := ⟨none, none, none, none, none⟩

/-- A saga step: name, forward action, compensating action, optional
metadata.  `compensate`'s final `Nat` argument is the attempt index. -/
structure SagaStep where
  name : String
  execute : Results → ExecOutcome
  compensate : Results → Value → Nat → Option SagaError
  metadata : Option SagaStepMetadata

/-- One entry of a saga definition: a sequential step or a parallel group. -/
inductive Entry where
  | single (step : SagaStep)
  | group (steps : List SagaStep)

/-- Observable events of a run, in the order they happen.  `loadState`
records the value found, `ctxWrite` records the step name, the idempotency
key in scope at the write site, and the written value. -/
inductive Event where
  | loadState (key : String) (found : Option StepState)
  | saveState (key : String) (state : StepState)
  | execCall (step : String)
  | compCall (step : String) (attempt : Nat)
  | hookBefore (step : String) (idx : Nat)
  | hookAfter (step : String) (idx : Nat)
  | hookError (step : String) (idx : Nat)
  | hookComp (step : String) (idx : Nat)
  | sleep (ms : Nat)
  | ctxWrite (step : String) (key : String) (v : Value)
deriving DecidableEq, Repr

/-- The mutable state threaded through a run: checkpoint store, context
results map, and the emitted event trace. -/
structure EngineState where
  store : Store
  results : Results
  trace : List Event
deriving Repr

/-- Append one event to the trace. -/
def emit (st : EngineState) (e : Event) : EngineState :=
  ⟨st.store, st.results, st.trace ++ [e]⟩

/-- `this._adapter.saveState(key, state)` followed by the trace record. -/
def saveStateT (st : EngineState) (key : String) (s : StepState) : EngineState :=
  ⟨aset st.store key s, st.results, st.trace ++ [Event.saveState key s]⟩

/-- Run the `n` registered hooks of one kind, in registration order; hooks
are observers, so only trace events are produced. -/
def fireHooks (st : EngineState) (n : Nat) (mk : Nat → Event) : EngineState :=
  ⟨st.store, st.results, st.trace ++ (List.range n).map mk⟩

/-- `DEFAULT_COMPENSATION_RETRIES` from the executor source. -/
def DEFAULT_COMPENSATION_RETRIES : Nat := 3

/-- `HITL_PENDING_KEY` from the executor source. -/
def HITL_PENDING_KEY : String := "__hitl:pending__"

/-- `isJsonSerializable` (serialization source file): whether
`JSON.stringify` succeeds, abstracted by the value's flag. -/
def isJsonSerializable (v : Value) : Bool := v.serializable

/-- `assertJsonSerializable`: `none` on success, the `SerializationError`
naming the step otherwise. -/
def assertJsonSerializable (v : Value) (stepName : String) : Option SagaError :=
  if isJsonSerializable v then none else some (SagaError.serialization stepName)

/-- `step.metadata?.idempotencyKey ?? step.name`. -/
def stepIdemKey (step : SagaStep) : String :=
  match step.metadata with
  | some m => m.idempotencyKey.getD step.name
  | none => step.name

/-- `step.metadata?.compensationRetries ?? DEFAULT_COMPENSATION_RETRIES`. -/
def stepCompRetries (step : SagaStep) : Nat :=
  match step.metadata with
  | some m => m.compensationRetries.getD DEFAULT_COMPENSATION_RETRIES
  | none => DEFAULT_COMPENSATION_RETRIES

/-- An entry of the `completed` bookkeeping array: `{step, result, idemKey}`. -/
structure CompletedRec where
  step : SagaStep
  result : Value
  idemKey : String

/-- The executor: the saga definition plus the numbers of registered
hooks of each kind (hooks themselves are pure observers). -/
structure Executor where
  definition : List Entry
  nBefore : Nat
  nAfter : Nat
  nError : Nat
  nComp : Nat

/-- One descriptor of the dry-run execution plan (`ExecutionPlanStep` plus
the `parallel` tag set for flattened group members). -/
structure PlanEntry where
  name : String
  description : Option String
  skipOnDryRun : Option Bool
  parallel : Bool
deriving DecidableEq, Repr

/-- Overall outcome of `run`/`resume`: the mutated context (carried by the
final `EngineState`), a pending-approval descriptor, a dry-run plan, or a
thrown error. -/
inductive RunOutcome where
  | success
  | pendingApproval (stepName : String)
  | dryRun (plan : List PlanEntry)
  | failed (e : SagaError)
deriving DecidableEq, Repr

/-- Plan descriptor for one step (`_dryRun` loop body). -/
def planEntryOf (s : SagaStep) (par : Bool) : PlanEntry :=
  ⟨s.name, (s.metadata.bind fun m => m.description),
    (s.metadata.bind fun m => m.skipOnDryRun), par⟩

/-- `_dryRun`: the flattened execution plan, group members in place and
tagged as parallel; no state access and no event emitted. -/
def dryRunOf : List Entry → List PlanEntry
  | [] => []
  | Entry.single s :: rest => planEntryOf s false :: dryRunOf rest
  | Entry.group gs :: rest => gs.map (fun s => planEntryOf s true) ++ dryRunOf rest

/-- Result of one sequential-step iteration of the `run` loop. -/
inductive SeqResult where
  | ok (rec : CompletedRec)
  | pending
  | errored (e : SagaError)

/-- The `catch` block of the sequential loop: error hooks, then either the
HITL pause path (for `PendingApprovalError`) or an error result that the
loop will roll back and rethrow. -/
def seqCatch (ex : Executor) (step : SagaStep) (idemKey : String)
    (st : EngineState) (e : SagaError) : EngineState × SeqResult :=
  let st := fireHooks st ex.nError (Event.hookError step.name)
  if e = SagaError.pendingApproval then
    let st := saveStateT st idemKey ⟨StepStatus.pending_approval, none⟩
    let st := saveStateT st HITL_PENDING_KEY
      ⟨StepStatus.completed, some ⟨step.name, true⟩⟩
    (st, SeqResult.pending)
  else
    (st, SeqResult.errored e)

/-- Fresh execution of a sequential step (no usable checkpoint): before
hooks, `execute`, serialization guard, checkpoint save, after hooks,
context write. -/
def runStepFresh (ex : Executor) (step : SagaStep) (idemKey : String)
    (st : EngineState) : EngineState × SeqResult :=
  let st := fireHooks st ex.nBefore (Event.hookBefore step.name)
  let st := emit st (Event.execCall step.name)
  match step.execute st.results with
  | ExecOutcome.error e => seqCatch ex step idemKey st e
  | ExecOutcome.ok v =>
    match assertJsonSerializable v step.name with
    | some e => seqCatch ex step idemKey st e
    | none =>
      let st := saveStateT st idemKey ⟨StepStatus.completed, some v⟩
      let st := fireHooks st ex.nAfter (Event.hookAfter step.name)
      let st : EngineState :=
        ⟨st.store, aset st.results step.name v,
          st.trace ++ [Event.ctxWrite step.name idemKey v]⟩
      (st, SeqResult.ok ⟨step, v, idemKey⟩)

/-- One sequential step of the `run` loop: idempotency check, then replay,
pending-approval early return, or fresh execution. -/
def runStepSeq (ex : Executor) (step : SagaStep) (st : EngineState) :
    EngineState × SeqResult :=
  let idemKey := stepIdemKey step
  let existing := alookup st.store idemKey
  let st := emit st (Event.loadState idemKey existing)
  match existing with
  | some s =>
    match s.status with
    | StepStatus.completed =>
      let result := s.result.getD Value.undef
      let st : EngineState :=
        ⟨st.store, aset st.results step.name result,
          st.trace ++ [Event.ctxWrite step.name idemKey result]⟩
      (st, SeqResult.ok ⟨step, result, idemKey⟩)
    | StepStatus.pending_approval => (st, SeqResult.pending)
    | StepStatus.compensated => runStepFresh ex step idemKey st
  | none => runStepFresh ex step idemKey st

/-- Fresh execution inside a group member body. -/
def groupMemberFresh (ex : Executor) (step : SagaStep) (idemKey : String)
    (st : EngineState) : EngineState × Except SagaError CompletedRec :=
  let st := fireHooks st ex.nBefore (Event.hookBefore step.name)
  let st := emit st (Event.execCall step.name)
  match step.execute st.results with
  | ExecOutcome.error e => (st, Except.error e)
  | ExecOutcome.ok v =>
    match assertJsonSerializable v step.name with
    | some e => (st, Except.error e)
    | none =>
      let st := saveStateT st idemKey ⟨StepStatus.completed, some v⟩
      let st := fireHooks st ex.nAfter (Event.hookAfter step.name)
      let st : EngineState :=
        ⟨st.store, aset st.results step.name v,
          st.trace ++ [Event.ctxWrite step.name idemKey v]⟩
      (st, Except.ok ⟨step, v, idemKey⟩)

/-- Body of one member of a parallel group (the closure passed to
`Promise.allSettled`); a thrown error is the rejected settlement.  Note
that no error hooks fire inside the member body: the settle loop fires
them. -/
def runGroupMember (ex : Executor) (step : SagaStep) (st : EngineState) :
    EngineState × Except SagaError CompletedRec :=
  let idemKey := stepIdemKey step
  let existing := alookup st.store idemKey
  let st := emit st (Event.loadState idemKey existing)
  match existing with
  | some s =>
    match s.status with
    | StepStatus.completed =>
      let result := s.result.getD Value.undef
      let st : EngineState :=
        ⟨st.store, aset st.results step.name result,
          st.trace ++ [Event.ctxWrite step.name idemKey result]⟩
      (st, Except.ok ⟨step, result, idemKey⟩)
    | StepStatus.pending_approval => (st, Except.error SagaError.pendingApproval)
    | StepStatus.compensated => groupMemberFresh ex step idemKey st
  | none => groupMemberFresh ex step idemKey st

/-- Normalise a schedule: any list that is not a permutation of the member
indices stands for the declaration-order interleaving. -/
def normalizeSched (n : Nat) (sched : List Nat) : List Nat :=
  if sched.Perm (List.range n) then sched else List.range n

/-- Run the member bodies in schedule order; the result of the member at
declaration index `i` is recorded under key `i`. -/
def runGroupMembers (ex : Executor) (steps : List SagaStep) :
    List Nat → EngineState → EngineState × List (Nat × Except SagaError CompletedRec)
  | [], st => (st, [])
  | i :: rest, st =>
    match steps[i]? with
    | none => runGroupMembers ex steps rest st
    | some step =>
      let p := runGroupMember ex step st
      let q := runGroupMembers ex steps rest p.1
      (q.1, (i, p.2) :: q.2)

/-- The settlement of the member at declaration index `i` (total: a valid
schedule covers every index). -/
def settledAt (assignments : List (Nat × Except SagaError CompletedRec))
    (i : Nat) : Except SagaError CompletedRec :=
  (assignments.lookup i).getD (Except.error (SagaError.ordinary ("unsettled")))

/-- The loop over `settled` in declaration order: successful members join
the completed list; failed members fire error hooks and the first failure
(by position) is remembered. -/
def settleLoop (ex : Executor) (assignments : List (Nat × Except SagaError CompletedRec)) :
    List (Nat × SagaStep) → EngineState → List CompletedRec → Option SagaError →
    EngineState × List CompletedRec × Option SagaError
  | [], st, completed, firstErr => (st, completed, firstErr)
  | (i, step) :: rest, st, completed, firstErr =>
    match settledAt assignments i with
    | Except.ok rec => settleLoop ex assignments rest st (completed ++ [rec]) firstErr
    | Except.error e =>
      let st := fireHooks st ex.nError (Event.hookError step.name)
      match firstErr with
      | some _ => settleLoop ex assignments rest st completed firstErr
      | none => settleLoop ex assignments rest st completed (some e)

/-- `_executeParallelGroup` up to the error check: run all members, settle
in declaration order.  Returns the grown completed list and the first
failure by position, if any. -/
def executeParallelGroup (ex : Executor) (gsteps : List SagaStep)
    (sched : List Nat) (st : EngineState) (completed : List CompletedRec) :
    EngineState × List CompletedRec × Option SagaError :=
  let s := normalizeSched gsteps.length sched
  let p := runGroupMembers ex gsteps s st
  settleLoop ex p.2 gsteps.enum p.1 completed none

/-- The retry loop of `_rollback` for one completed step: backoff sleep
before every attempt after the first, then `compensate`; on success fire
compensation hooks and checkpoint the compensation; on failure retry while
fuel remains, else report the last error. -/
def compensateLoop (ex : Executor) (rec : CompletedRec) :
    Nat → Nat → EngineState → EngineState × Option SagaError
  | attempt, fuel, st =>
    let st := if attempt > 0 then emit st (Event.sleep (100 * 2 ^ (attempt - 1))) else st
    let st := emit st (Event.compCall rec.step.name attempt)
    match rec.step.compensate st.results rec.result attempt with
    | none =>
      let st := fireHooks st ex.nComp (Event.hookComp rec.step.name)
      let st := saveStateT st (rec.idemKey ++ ":compensate") ⟨StepStatus.compensated, none⟩
      (st, none)
    | some e =>
      match fuel with
      | 0 => (st, some e)
      | f + 1 => compensateLoop ex rec (attempt + 1) f st

/-- Whether the compensation checkpoint lookup reports the step as already
compensated (the idempotent-rollback skip). -/
def shouldSkipComp (existing : Option StepState) : Bool :=
  match existing with
  | some s =>
    match s.status with
    | StepStatus.compensated => true
    | _ => false
  | none => false

/-- `_rollback` over the reversed completed list: skip already-compensated
steps, otherwise run the retry loop; a step that exhausts its retries
stops the walk with a `SagaCompensationError`. -/
def rollbackAux (ex : Executor) : List CompletedRec → EngineState → EngineState × Option SagaError
  | [], st => (st, none)
  | rec :: rest, st =>
    let compensateKey := rec.idemKey ++ ":compensate"
    let existing := alookup st.store compensateKey
    let st := emit st (Event.loadState compensateKey existing)
    if shouldSkipComp existing then rollbackAux ex rest st
    else
      match compensateLoop ex rec 0 (stepCompRetries rec.step) st with
      | (st2, none) => rollbackAux ex rest st2
      | (st2, some e) => (st2, some (SagaError.compensation rec.step.name e))

/-- `_rollback`: iterate backwards through the completed steps. -/
def rollback (ex : Executor) (completed : List CompletedRec) (st : EngineState) :
    EngineState × Option SagaError :=
  rollbackAux ex completed.reverse st

/-- The main loop of `run` over the definition entries.  `scheds` supplies
one member interleaving per parallel group encountered.  On a sequential
error or a group failure the completed steps are rolled back; a
compensation failure replaces the original error. -/
def runEntries (ex : Executor) :
    List Entry → List (List Nat) → List CompletedRec → EngineState → EngineState × RunOutcome
  | [], _, _, st => (st, RunOutcome.success)
  | Entry.single step :: rest, scheds, completed, st =>
    match runStepSeq ex step st with
    | (st2, SeqResult.ok rec) => runEntries ex rest scheds (completed ++ [rec]) st2
    | (st2, SeqResult.pending) => (st2, RunOutcome.pendingApproval step.name)
    | (st2, SeqResult.errored e) =>
      match rollback ex completed st2 with
      | (st3, some ce) => (st3, RunOutcome.failed ce)
      | (st3, none) => (st3, RunOutcome.failed e)
  | Entry.group gsteps :: rest, scheds, completed, st =>
    match executeParallelGroup ex gsteps (scheds.headD []) st completed with
    | (st2, completed2, none) => runEntries ex rest scheds.tail completed2 st2
    | (st2, completed2, some e) =>
      match rollback ex completed2 st2 with
      | (st3, some ce) => (st3, RunOutcome.failed ce)
      | (st3, none) => (st3, RunOutcome.failed e)

/-- `SagaExecutor.run`: the dry-run branch short-circuits everything else;
otherwise drive the definition from the first entry with an empty
completed list. -/
def run (ex : Executor) (dryRunFlag : Bool) (scheds : List (List Nat))
    (st : EngineState) : EngineState × RunOutcome :=
  if dryRunFlag then (st, RunOutcome.dryRun (dryRunOf ex.definition))
  else runEntries ex ex.definition scheds [] st

/-- The `find` of `resume`: only sequential entries are searched
(`!('parallel' in s) && s.name === stepName`). -/
def findSeqStep : List Entry → String → Option SagaStep
  | [], _ => none
  | Entry.single s :: rest, n => if s.name = n then some s else findSeqStep rest n
  | Entry.group _ :: rest, n => findSeqStep rest n

/-- `SagaExecutor.resume`: read the pending marker, locate the pending
step among the sequential entries, checkpoint the approved result, write
it into the context, clear the marker, then re-run from the top. -/
def resume (ex : Executor) (approvedResult : Value) (scheds : List (List Nat))
    (st : EngineState) : EngineState × RunOutcome :=
  let pending := alookup st.store HITL_PENDING_KEY
  let st := emit st (Event.loadState HITL_PENDING_KEY pending)
  match pending with
  | some p =>
    match p.status with
    | StepStatus.completed =>
      let stepName := (p.result.getD Value.undef).tag
      match findSeqStep ex.definition stepName with
      | none => (st, RunOutcome.failed (SagaError.stepNotFound stepName))
      | some step =>
        let idemKey := stepIdemKey step
        let st := saveStateT st idemKey ⟨StepStatus.completed, some approvedResult⟩
        let st : EngineState :=
          ⟨st.store, aset st.results stepName approvedResult,
            st.trace ++ [Event.ctxWrite stepName idemKey approvedResult]⟩
        let st := saveStateT st HITL_PENDING_KEY ⟨StepStatus.compensated, none⟩
        run ex false scheds st
    | _ => (st, RunOutcome.failed SagaError.noPendingStep)
  | none => (st, RunOutcome.failed SagaError.noPendingStep)

-- ---------------------------------------------------------------------------
-- Trace projections and spec-side descriptions
-- ---------------------------------------------------------------------------

/-- Selector for compensate-call events. -/
def compCallP : Event → Option (String × Nat)
  | Event.compCall s a => some (s, a)
  | _ => none

/-- The `(step name, attempt)` pairs of the compensate calls in a trace. -/
def compCalls (tr : List Event) : List (String × Nat) :=
  tr.filterMap compCallP

/-- The step names of the compensate calls in a trace, in order. -/
def compCallNames (tr : List Event) : List String :=
  (compCalls tr).map Prod.fst

/-- Selector for execute-call events. -/
def execCallP : Event → Option String
  | Event.execCall s => some s
  | _ => none

/-- The step names of the execute calls in a trace, in order. -/
def execCalls (tr : List Event) : List String :=
  tr.filterMap execCallP

/-- Selector for backoff-sleep events. -/
def sleepP : Event → Option Nat
  | Event.sleep n => some n
  | _ => none

/-- The backoff delays (ms) in a trace, in order. -/
def sleeps (tr : List Event) : List Nat :=
  tr.filterMap sleepP

/-- Selector for checkpoint-store write events (key only). -/
def saveKeyP : Event → Option String
  | Event.saveState k _ => some k
  | _ => none

/-- The keys of the checkpoint-store writes in a trace, in order. -/
def saveKeys (tr : List Event) : List String :=
  tr.filterMap saveKeyP

/-- Selector for checkpoint-store read events (key only). -/
def loadKeyP : Event → Option String
  | Event.loadState k _ => some k
  | _ => none

/-- The keys of the checkpoint-store reads in a trace, in order. -/
def loadKeys (tr : List Event) : List String :=
  tr.filterMap loadKeyP

/-- Selector for error-hook firings. -/
def errHookP : Event → Option String
  | Event.hookError s _ => some s
  | _ => none

/-- The step names of the error-hook firings in a trace (one entry per
individual hook invocation). -/
def errHookFires (tr : List Event) : List String :=
  tr.filterMap errHookP

/-- Selector for before-hook firings. -/
def beforeHookP : Event → Option String
  | Event.hookBefore s _ => some s
  | _ => none

/-- The step names of the before-hook firings in a trace. -/
def beforeHookFires (tr : List Event) : List String :=
  tr.filterMap beforeHookP

/-- Selector for after-hook firings. -/
def afterHookP : Event → Option String
  | Event.hookAfter s _ => some s
  | _ => none

/-- The step names of the after-hook firings in a trace. -/
def afterHookFires (tr : List Event) : List String :=
  tr.filterMap afterHookP

/-- Selector for context-write events. -/
def ctxWriteP : Event → Option (String × String × Value)
  | Event.ctxWrite n k v => some (n, k, v)
  | _ => none

/-- The `(name, key, value)` triples of the context writes in a trace. -/
def ctxWrites (tr : List Event) : List (String × String × Value) :=
  tr.filterMap ctxWriteP

/-- Spec-side: the step names of a definition flattened in declaration
order (group members in place). -/
def declaredNames : List Entry → List String
  | [] => []
  | Entry.single s :: rest => s.name :: declaredNames rest
  | Entry.group gs :: rest => gs.map (fun s => s.name) ++ declaredNames rest

/-- Spec-side: the steps of a definition flattened in declaration order,
each paired with whether it is a concurrent-group member. -/
def flattenEntries : List Entry → List (SagaStep × Bool)
  | [] => []
  | Entry.single s :: rest => (s, false) :: flattenEntries rest
  | Entry.group gs :: rest => gs.map (fun s => (s, true)) ++ flattenEntries rest

/-- Spec-side: the names of the sequential (non-group) entries only. -/
def seqNames : List Entry → List String
  | [] => []
  | Entry.single s :: rest => s.name :: seqNames rest
  | Entry.group _ :: rest => seqNames rest

/-- Spec-side: the names of the concurrent-group members only. -/
def groupMemberNames : List Entry → List String
  | [] => []
  | Entry.single _ :: rest => groupMemberNames rest
  | Entry.group gs :: rest => gs.map (fun s => s.name) ++ groupMemberNames rest

-- ---------------------------------------------------------------------------
-- Concrete sample steps and values, used to instantiate the theorems
-- ---------------------------------------------------------------------------

/-- A step that always succeeds with `v` and whose compensate always
succeeds. -/
def mkOkStep (n : String) (v : Value) : SagaStep :=
  ⟨n, fun _ => ExecOutcome.ok v, fun _ _ _ => none, none⟩

/-- A step whose execute always throws `e` and whose compensate always
succeeds. -/
def mkFailStep (n : String) (e : SagaError) : SagaStep :=
  ⟨n, fun _ => ExecOutcome.error e, fun _ _ _ => none, none⟩

/-- A step whose execute raises the approval-required signal. -/
def mkPendStep (n : String) : SagaStep :=
  ⟨n, fun _ => ExecOutcome.error SagaError.pendingApproval, fun _ _ _ => none, none⟩

/-- A step that succeeds with `v` and whose compensate fails on the first
`k` attempts, carrying the attempt index in the error, then succeeds. -/
def mkRetryStep (n : String) (v : Value) (k : Nat) (m : Nat) : SagaStep :=
  ⟨n, fun _ => ExecOutcome.ok v,
    fun _ _ a => if a < k then some (SagaError.ordinary (toString a)) else none,
    some ⟨none, none, some m, none, none⟩⟩

/-- A step that succeeds with `v` and whose compensate always fails,
carrying the attempt index in the error. -/
def mkBadCompStep (n : String) (v : Value) (m : Option Nat) : SagaStep :=
  ⟨n, fun _ => ExecOutcome.ok v,
    fun _ _ a => some (SagaError.ordinary (toString a)),
    some ⟨none, none, m, none, none⟩⟩

/-- A step with default metadata whose compensate always fails, carrying
the attempt index in the error. -/
def mkDefaultBadCompStep (n : String) (v : Value) : SagaStep :=
  ⟨n, fun _ => ExecOutcome.ok v,
    fun _ _ a => some (SagaError.ordinary (toString a)), none⟩

/-- Sample serializable values. -/
def w1 : Value := ⟨"w1", true⟩

def w2 : Value := ⟨"w2", true⟩

def w3 : Value := ⟨"w3", true⟩

/-- A sample non-serializable value (e.g. a circular object). -/
def wBad : Value := ⟨"circular", false⟩

/-- A sample ordinary step error. -/
def boom : SagaError := SagaError.ordinary ("boom")

-- ---------------------------------------------------------------------------
-- Auxiliary definitions for the statements and proofs
-- ---------------------------------------------------------------------------

/-- The events of one compensation attempt: the backoff sleep (for every
attempt after the first) followed by the compensate call. -/
def attemptEvt (name : String) (j : Nat) : List Event :=
  (if j > 0 then [Event.sleep (100 * 2 ^ (j - 1))] else []) ++ [Event.compCall name j]

/-- The events of `k` consecutive failing attempts starting at `attempt`. -/
def failEvts (name : String) : Nat → Nat → List Event
  | _, 0 => []
  | attempt, k + 1 => attemptEvt name attempt ++ failEvts name (attempt + 1) k

/-- The six member interleavings of a three-step concurrent group. -/
def permsOf3 : List (List Nat) :=
  [[0, 1, 2], [0, 2, 1], [1, 0, 2], [1, 2, 0], [2, 0, 1], [2, 1, 0]]

/-- Completion evidence carried by a trace event: a checkpoint saved as
completed, or a checkpoint loaded back as completed, with the result value
the engine would replay (`result.getD undefined`). -/
def evPush (ev : List (String × Value)) (e : Event) : List (String × Value) :=
  match e with
  | Event.saveState k s =>
    if s.status = StepStatus.completed then (k, s.result.getD Value.undef) :: ev else ev
  | Event.loadState k (some s) =>
    if s.status = StepStatus.completed then (k, s.result.getD Value.undef) :: ev else ev
  | _ => ev

/-- Scan a trace with an evidence accumulator: every context write must be
preceded (in the scan) by completion evidence for its key and value. -/
def writesOkFrom (ev : List (String × Value)) : List Event → Bool
  | [] => true
  | e :: rest =>
    (match e with
     | Event.ctxWrite _ k v => decide ((k, v) ∈ ev)
     | _ => true) && writesOkFrom (evPush ev e) rest

/-- The evidence accumulated after scanning a trace. -/
def evAfter (ev : List (String × Value)) : List Event → List (String × Value)
  | [] => ev
  | e :: rest => evAfter (evPush ev e) rest

/-- A trace segment whose context writes are all justified by evidence
inside the segment itself, regardless of prior evidence. -/
def SegOk (Δ : List Event) : Prop := ∀ ev, writesOkFrom ev Δ = true

-- ---------------------------------------------------------------------------
-- Basic lemmas: association lists, keys, projections
-- ---------------------------------------------------------------------------

theorem alookup_aset_self {α : Type} (l : List (String × α)) (k : String) (v : α) :
    alookup (aset l k v) k = some v := by
  induction l with
  | nil => simp [aset, alookup]
  | cons p rest ih =>
    by_cases h : p.1 = k
    · simp [aset, alookup, h]
    · simp [aset, alookup, h, ih]

theorem alookup_aset_ne {α : Type} (l : List (String × α)) (k key : String) (v : α)
    (h : key ≠ k) : alookup (aset l k v) key = alookup l key := by
  induction l with
  | nil => simp [aset, alookup, Ne.symm h]
  | cons p rest ih =>
    by_cases hp : p.1 = k
    · have hkey : p.1 ≠ key := by rw [hp]; exact Ne.symm h
      simp [aset, alookup, hp, Ne.symm h, hkey]
    · by_cases hk : p.1 = key
      · simp [aset, alookup, hp, hk, h]
      · simp [aset, alookup, hp, hk, ih]

theorem compKey_inj {a b : String} (h : a ++ ":compensate" = b ++ ":compensate") :
    a = b := by
  have hd := congrArg String.data h
  simp [String.data_append] at hd
  exact String.ext hd

theorem ne_compKey_self (k : String) : k ≠ k ++ ":compensate" := by
  intro h
  have := congrArg String.length h
  simp [String.length_append] at this
  exact absurd this (by decide)

/-- The idempotent-rollback skip never fires on a store whose records all
have a status other than `compensated`. -/
theorem shouldSkipComp_false_of (l : Store) (k : String)
    (h : ∀ p ∈ l, p.2.status ≠ StepStatus.compensated) :
    shouldSkipComp (alookup l k) = false := by
  induction l with
  | nil => simp [alookup, shouldSkipComp]
  | cons p rest ih =>
    by_cases hk : p.1 = k
    · have hp := h p (by simp)
      simp only [alookup, hk, if_pos rfl, shouldSkipComp]
      cases hst : p.2.status <;> simp_all
    · simp only [alookup, hk, if_neg hk]
      exact ih (fun q hq => h q (by simp [hq]))

theorem compCalls_append (a b : List Event) :
    compCalls (a ++ b) = compCalls a ++ compCalls b := by
  simp [compCalls]

theorem execCalls_append (a b : List Event) :
    execCalls (a ++ b) = execCalls a ++ execCalls b := by
  simp [execCalls]

theorem sleeps_append (a b : List Event) :
    sleeps (a ++ b) = sleeps a ++ sleeps b := by
  simp [sleeps]

theorem saveKeys_append (a b : List Event) :
    saveKeys (a ++ b) = saveKeys a ++ saveKeys b := by
  simp [saveKeys]

theorem loadKeys_append (a b : List Event) :
    loadKeys (a ++ b) = loadKeys a ++ loadKeys b := by
  simp [loadKeys]

theorem errHookFires_append (a b : List Event) :
    errHookFires (a ++ b) = errHookFires a ++ errHookFires b := by
  simp [errHookFires]

theorem beforeHookFires_append (a b : List Event) :
    beforeHookFires (a ++ b) = beforeHookFires a ++ beforeHookFires b := by
  simp [beforeHookFires]

theorem afterHookFires_append (a b : List Event) :
    afterHookFires (a ++ b) = afterHookFires a ++ afterHookFires b := by
  simp [afterHookFires]

theorem ctxWrites_append (a b : List Event) :
    ctxWrites (a ++ b) = ctxWrites a ++ ctxWrites b := by
  simp [ctxWrites]

-- ---------------------------------------------------------------------------
-- Characterisation lemmas: one sequential step
-- ---------------------------------------------------------------------------

/-- Fresh successful execution of a sequential step. -/
theorem seq_fresh_ok (ex : Executor) (step : SagaStep) (sto : Store)
    (res : Results) (tr : List Event) (v : Value)
    (hlk : alookup sto (stepIdemKey step) = none)
    (hex : step.execute res = ExecOutcome.ok v)
    (hser : v.serializable = true) :
    runStepSeq ex step ⟨sto, res, tr⟩ =
      (⟨aset sto (stepIdemKey step) ⟨StepStatus.completed, some v⟩,
        aset res step.name v,
        tr ++ [Event.loadState (stepIdemKey step) none]
          ++ (List.range ex.nBefore).map (Event.hookBefore step.name)
          ++ [Event.execCall step.name]
          ++ [Event.saveState (stepIdemKey step) ⟨StepStatus.completed, some v⟩]
          ++ (List.range ex.nAfter).map (Event.hookAfter step.name)
          ++ [Event.ctxWrite step.name (stepIdemKey step) v]⟩,
        SeqResult.ok ⟨step, v, stepIdemKey step⟩) := by
  simp [runStepSeq, runStepFresh, emit, fireHooks, saveStateT, hlk, hex,
    assertJsonSerializable, isJsonSerializable, hser]

/-- Idempotent replay of a sequential step checkpointed as completed. -/
theorem seq_replay (ex : Executor) (step : SagaStep) (sto : Store)
    (res : Results) (tr : List Event) (r : Option Value)
    (hlk : alookup sto (stepIdemKey step) = some ⟨StepStatus.completed, r⟩) :
    runStepSeq ex step ⟨sto, res, tr⟩ =
      (⟨sto, aset res step.name (r.getD Value.undef),
        tr ++ [Event.loadState (stepIdemKey step) (some ⟨StepStatus.completed, r⟩),
          Event.ctxWrite step.name (stepIdemKey step) (r.getD Value.undef)]⟩,
        SeqResult.ok ⟨step, r.getD Value.undef, stepIdemKey step⟩) := by
  simp [runStepSeq, emit, hlk]

/-- A sequential step whose checkpoint is `pending_approval` stops the run
immediately. -/
theorem seq_pending_existing (ex : Executor) (step : SagaStep) (sto : Store)
    (res : Results) (tr : List Event) (r : Option Value)
    (hlk : alookup sto (stepIdemKey step) = some ⟨StepStatus.pending_approval, r⟩) :
    runStepSeq ex step ⟨sto, res, tr⟩ =
      (⟨sto, res,
        tr ++ [Event.loadState (stepIdemKey step)
          (some ⟨StepStatus.pending_approval, r⟩)]⟩,
        SeqResult.pending) := by
  simp [runStepSeq, emit, hlk]

/-- Fresh execution of a sequential step that throws an ordinary
(non-approval) error. -/
theorem seq_fresh_error (ex : Executor) (step : SagaStep) (sto : Store)
    (res : Results) (tr : List Event) (e : SagaError)
    (hlk : alookup sto (stepIdemKey step) = none)
    (hex : step.execute res = ExecOutcome.error e)
    (hna : e ≠ SagaError.pendingApproval) :
    runStepSeq ex step ⟨sto, res, tr⟩ =
      (⟨sto, res,
        tr ++ [Event.loadState (stepIdemKey step) none]
          ++ (List.range ex.nBefore).map (Event.hookBefore step.name)
          ++ [Event.execCall step.name]
          ++ (List.range ex.nError).map (Event.hookError step.name)⟩,
        SeqResult.errored e) := by
  simp [runStepSeq, runStepFresh, seqCatch, emit, fireHooks, hlk, hex, hna]

/-- Fresh execution of a sequential step returning a non-serializable
value: the serialization error takes the ordinary failure path and the
result is never persisted. -/
theorem seq_fresh_nonser (ex : Executor) (step : SagaStep) (sto : Store)
    (res : Results) (tr : List Event) (v : Value)
    (hlk : alookup sto (stepIdemKey step) = none)
    (hex : step.execute res = ExecOutcome.ok v)
    (hser : v.serializable = false) :
    runStepSeq ex step ⟨sto, res, tr⟩ =
      (⟨sto, res,
        tr ++ [Event.loadState (stepIdemKey step) none]
          ++ (List.range ex.nBefore).map (Event.hookBefore step.name)
          ++ [Event.execCall step.name]
          ++ (List.range ex.nError).map (Event.hookError step.name)⟩,
        SeqResult.errored (SagaError.serialization step.name)) := by
  simp [runStepSeq, runStepFresh, seqCatch, emit, fireHooks, hlk, hex,
    assertJsonSerializable, isJsonSerializable, hser]

/-- Fresh execution of a sequential step that raises the approval-required
signal: checkpoint `pending_approval`, persist the marker, pause. -/
theorem seq_fresh_approval (ex : Executor) (step : SagaStep) (sto : Store)
    (res : Results) (tr : List Event)
    (hlk : alookup sto (stepIdemKey step) = none)
    (hex : step.execute res = ExecOutcome.error SagaError.pendingApproval) :
    runStepSeq ex step ⟨sto, res, tr⟩ =
      (⟨aset (aset sto (stepIdemKey step) ⟨StepStatus.pending_approval, none⟩)
          HITL_PENDING_KEY ⟨StepStatus.completed, some ⟨step.name, true⟩⟩,
        res,
        tr ++ [Event.loadState (stepIdemKey step) none]
          ++ (List.range ex.nBefore).map (Event.hookBefore step.name)
          ++ [Event.execCall step.name]
          ++ (List.range ex.nError).map (Event.hookError step.name)
          ++ [Event.saveState (stepIdemKey step) ⟨StepStatus.pending_approval, none⟩,
            Event.saveState HITL_PENDING_KEY
              ⟨StepStatus.completed, some ⟨step.name, true⟩⟩]⟩,
        SeqResult.pending) := by
  simp [runStepSeq, runStepFresh, seqCatch, emit, fireHooks, saveStateT, hlk, hex]

-- ---------------------------------------------------------------------------
-- Characterisation lemmas: one parallel-group member body
-- ---------------------------------------------------------------------------

/-- Fresh successful execution of a group member. -/
theorem gm_fresh_ok (ex : Executor) (step : SagaStep) (sto : Store)
    (res : Results) (tr : List Event) (v : Value)
    (hlk : alookup sto (stepIdemKey step) = none)
    (hex : step.execute res = ExecOutcome.ok v)
    (hser : v.serializable = true) :
    runGroupMember ex step ⟨sto, res, tr⟩ =
      (⟨aset sto (stepIdemKey step) ⟨StepStatus.completed, some v⟩,
        aset res step.name v,
        tr ++ [Event.loadState (stepIdemKey step) none]
          ++ (List.range ex.nBefore).map (Event.hookBefore step.name)
          ++ [Event.execCall step.name]
          ++ [Event.saveState (stepIdemKey step) ⟨StepStatus.completed, some v⟩]
          ++ (List.range ex.nAfter).map (Event.hookAfter step.name)
          ++ [Event.ctxWrite step.name (stepIdemKey step) v]⟩,
        Except.ok ⟨step, v, stepIdemKey step⟩) := by
  simp [runGroupMember, groupMemberFresh, emit, fireHooks, saveStateT, hlk, hex,
    assertJsonSerializable, isJsonSerializable, hser]

/-- Fresh execution of a group member whose execute throws: the settlement
is rejected with that error (approval errors included). -/
theorem gm_fresh_error (ex : Executor) (step : SagaStep) (sto : Store)
    (res : Results) (tr : List Event) (e : SagaError)
    (hlk : alookup sto (stepIdemKey step) = none)
    (hex : step.execute res = ExecOutcome.error e) :
    runGroupMember ex step ⟨sto, res, tr⟩ =
      (⟨sto, res,
        tr ++ [Event.loadState (stepIdemKey step) none]
          ++ (List.range ex.nBefore).map (Event.hookBefore step.name)
          ++ [Event.execCall step.name]⟩,
        Except.error e) := by
  simp [runGroupMember, groupMemberFresh, emit, fireHooks, hlk, hex]

/-- Push the rollback skip-check inside a lookup's if-tree, so stores whose
records all carry non-`compensated` statuses collapse the check to `false`
without resolving the key comparisons. -/
theorem shouldSkipComp_ite (c : Prop) [Decidable c] (a b : Option StepState) :
    shouldSkipComp (if c then a else b) =
      if c then shouldSkipComp a else shouldSkipComp b := by
  by_cases h : c <;> simp [h]

theorem shouldSkipComp_none : shouldSkipComp none = false := rfl

theorem shouldSkipComp_completed (r : Option Value) :
    shouldSkipComp (some ⟨StepStatus.completed, r⟩) = false := rfl

theorem shouldSkipComp_pending (r : Option Value) :
    shouldSkipComp (some ⟨StepStatus.pending_approval, r⟩) = false := rfl

/-- A mapped event segment none of whose events a selector accepts
contributes nothing to that projection. -/
theorem filterMap_comp_none {α γ : Type} (f : Event → Option γ) (mk : α → Event)
    (l : List α) (h : ∀ a, f (mk a) = none) : List.filterMap (f ∘ mk) l = [] := by
  induction l with
  | nil => rfl
  | cons a rest ih => simp [Function.comp, h, ih]

/-- A mapped event segment each of whose events a selector sends to the
same value projects to a replicated list. -/
theorem filterMap_comp_const {α γ : Type} (f : Event → Option γ) (mk : α → Event)
    (c : γ) (l : List α) (h : ∀ a, f (mk a) = some c) :
    List.filterMap (f ∘ mk) l = List.replicate l.length c := by
  induction l with
  | nil => rfl
  | cons a rest ih => simp [Function.comp, h, ih, List.replicate_succ]

theorem compKey_ne {a b : String} (h : a ≠ b) :
    a ++ ":compensate" ≠ b ++ ":compensate" := fun hh => h (compKey_inj hh)

theorem alookup_ite {α : Type} (c : Prop) [Decidable c]
    (l1 l2 : List (String × α)) (k : String) :
    alookup (if c then l1 else l2) k = if c then alookup l1 k else alookup l2 k := by
  by_cases h : c <;> simp [h]

theorem aset_ite {α : Type} (c : Prop) [Decidable c]
    (l1 l2 : List (String × α)) (k : String) (v : α) :
    aset (if c then l1 else l2) k v = if c then aset l1 k v else aset l2 k v := by
  by_cases h : c <;> simp [h]

theorem results_ite (c : Prop) [Decidable c] (a b : EngineState) :
    (if c then a else b).results = if c then a.results else b.results := by
  split <;> rfl

theorem store_ite (c : Prop) [Decidable c] (a b : EngineState) :
    (if c then a else b).store = if c then a.store else b.store := by
  split <;> rfl

theorem trace_ite (c : Prop) [Decidable c] (a b : EngineState) :
    (if c then a else b).trace = if c then a.trace else b.trace := by
  split <;> rfl


-- ---------------------------------------------------------------------------
-- C1
-- ---------------------------------------------------------------------------

/-- Claim C1: in a saga of sequential steps A, B, C, D (fresh store,
distinct names, default metadata) in which A, B, C complete successfully
and D then fails with an ordinary (non-approval) error, and each completed
step's compensate succeeds, the engine calls compensate exactly once for
each completed step in the exact reverse order C, B, A — never for D and
never more than once for any step (the trace's compensate-call list is
exactly `[(C,0),(B,0),(A,0)]`) — and then re-raises D's original error to
the caller. -/
theorem c1_rollback_reverse_order
    (A B C D : SagaStep) (vA vB vC : Value) (e : SagaError)
    (r0 : Results) (nb na ne nc : Nat) (scheds : List (List Nat))
    (hmA : A.metadata = none) (hmB : B.metadata = none)
    (hmC : C.metadata = none) (hmD : D.metadata = none)
    (hAB : A.name ≠ B.name) (hAC : A.name ≠ C.name) (hAD : A.name ≠ D.name)
    (hBC : B.name ≠ C.name) (hBD : B.name ≠ D.name) (hCD : C.name ≠ D.name)
    (hA : ∀ ctx, A.execute ctx = ExecOutcome.ok vA) (hvA : vA.serializable = true)
    (hB : ∀ ctx, B.execute ctx = ExecOutcome.ok vB) (hvB : vB.serializable = true)
    (hC : ∀ ctx, C.execute ctx = ExecOutcome.ok vC) (hvC : vC.serializable = true)
    (hD : ∀ ctx, D.execute ctx = ExecOutcome.error e)
    (hne : e ≠ SagaError.pendingApproval)
    (hAc : ∀ ctx r n, A.compensate ctx r n = none)
    (hBc : ∀ ctx r n, B.compensate ctx r n = none)
    (hCc : ∀ ctx r n, C.compensate ctx r n = none) :
    (run ⟨[Entry.single A, Entry.single B, Entry.single C, Entry.single D],
        nb, na, ne, nc⟩ false scheds ⟨[], r0, []⟩).2 = RunOutcome.failed e ∧
    compCalls (run ⟨[Entry.single A, Entry.single B, Entry.single C, Entry.single D],
        nb, na, ne, nc⟩ false scheds ⟨[], r0, []⟩).1.trace =
      [(C.name, 0), (B.name, 0), (A.name, 0)] := by
  simp [run, runEntries, runStepSeq, runStepFresh, seqCatch, rollback, rollbackAux,
    compensateLoop, shouldSkipComp_ite, shouldSkipComp_none, shouldSkipComp_completed,
    alookup_ite, aset_ite, emit, fireHooks, saveStateT,
    stepIdemKey, stepCompRetries, DEFAULT_COMPENSATION_RETRIES,
    assertJsonSerializable, isJsonSerializable, aset, alookup,
    hmA, hmB, hmC, hmD, hA, hB, hC, hD, hvA, hvB, hvC, hne,
    hAc, hBc, hCc, hAB, hAC, hAD, hBC, hBD, hCD,
    Ne.symm hAB, Ne.symm hAC, Ne.symm hAD, Ne.symm hBC, Ne.symm hBD, Ne.symm hCD,
    compKey_ne hAB, compKey_ne hAC, compKey_ne hBC,
    compKey_ne (Ne.symm hAB), compKey_ne (Ne.symm hAC), compKey_ne (Ne.symm hBC),
    ne_compKey_self A.name, ne_compKey_self B.name, ne_compKey_self C.name,
    compCalls, compCallP, filterMap_comp_none]

/-- Witness for C1 at a concrete four-step saga. -/
theorem c1_rollback_reverse_order_witness :
    (run ⟨[Entry.single (mkOkStep ("A") w1), Entry.single (mkOkStep ("B") w2),
        Entry.single (mkOkStep ("C") w3), Entry.single (mkFailStep ("D") boom)],
        1, 1, 1, 1⟩ false [] ⟨[], [], []⟩).2 = RunOutcome.failed boom ∧
    compCalls (run ⟨[Entry.single (mkOkStep ("A") w1), Entry.single (mkOkStep ("B") w2),
        Entry.single (mkOkStep ("C") w3), Entry.single (mkFailStep ("D") boom)],
        1, 1, 1, 1⟩ false [] ⟨[], [], []⟩).1.trace = [("C", 0), ("B", 0), ("A", 0)] :=
  c1_rollback_reverse_order (mkOkStep ("A") w1) (mkOkStep ("B") w2)
    (mkOkStep ("C") w3) (mkFailStep ("D") boom) w1 w2 w3 boom [] 1 1 1 1 []
    rfl rfl rfl rfl (by decide) (by decide) (by decide) (by decide) (by decide)
    (by decide) (fun _ => rfl) rfl (fun _ => rfl) rfl (fun _ => rfl) rfl
    (fun _ => rfl) (by decide) (fun _ _ _ => rfl) (fun _ _ _ => rfl)
    (fun _ _ _ => rfl)

-- ---------------------------------------------------------------------------
-- C5
-- ---------------------------------------------------------------------------

/-- Claim C5: a step S whose idempotency key is checkpointed as completed
with result X is replayed: its execute is never invoked and no
before/after hooks fire for it, the final context has `results[S] = X`,
and the run proceeds normally to the next step T, which executes exactly
once with its hooks. -/
theorem c5_idempotent_replay
    (S T : SagaStep) (X vT : Value) (sto0 : Store) (r0 : Results)
    (nb na ne nc : Nat) (scheds : List (List Nat))
    (hS : alookup sto0 (stepIdemKey S) = some ⟨StepStatus.completed, some X⟩)
    (hT : alookup sto0 (stepIdemKey T) = none)
    (hTex : ∀ ctx, T.execute ctx = ExecOutcome.ok vT)
    (hvT : vT.serializable = true)
    (hST : S.name ≠ T.name) :
    (run ⟨[Entry.single S, Entry.single T], nb, na, ne, nc⟩ false scheds
        ⟨sto0, r0, []⟩).2 = RunOutcome.success ∧
    alookup (run ⟨[Entry.single S, Entry.single T], nb, na, ne, nc⟩ false scheds
        ⟨sto0, r0, []⟩).1.results S.name = some X ∧
    execCalls (run ⟨[Entry.single S, Entry.single T], nb, na, ne, nc⟩ false scheds
        ⟨sto0, r0, []⟩).1.trace = [T.name] ∧
    beforeHookFires (run ⟨[Entry.single S, Entry.single T], nb, na, ne, nc⟩ false scheds
        ⟨sto0, r0, []⟩).1.trace = List.replicate nb T.name ∧
    afterHookFires (run ⟨[Entry.single S, Entry.single T], nb, na, ne, nc⟩ false scheds
        ⟨sto0, r0, []⟩).1.trace = List.replicate na T.name := by
  simp [run, runEntries, runStepSeq, runStepFresh, emit, fireHooks, saveStateT,
    assertJsonSerializable, isJsonSerializable, hS, hT, hTex, hvT,
    alookup_aset_self, alookup_aset_ne _ _ _ _ hST,
    execCalls, execCallP, beforeHookFires, beforeHookP,
    afterHookFires, afterHookP, filterMap_comp_none, filterMap_comp_const]

/-- Witness for C5 at a concrete pre-seeded store. -/
theorem c5_idempotent_replay_witness :
    (run ⟨[Entry.single (mkOkStep ("S") w1), Entry.single (mkOkStep ("T") w2)],
        1, 1, 1, 1⟩ false [] ⟨[(("S"), ⟨StepStatus.completed, some w3⟩)], [], []⟩).2 =
      RunOutcome.success ∧
    alookup (run ⟨[Entry.single (mkOkStep ("S") w1), Entry.single (mkOkStep ("T") w2)],
        1, 1, 1, 1⟩ false [] ⟨[(("S"), ⟨StepStatus.completed, some w3⟩)], [], []⟩).1.results
      ("S") = some w3 ∧
    execCalls (run ⟨[Entry.single (mkOkStep ("S") w1), Entry.single (mkOkStep ("T") w2)],
        1, 1, 1, 1⟩ false [] ⟨[(("S"), ⟨StepStatus.completed, some w3⟩)], [], []⟩).1.trace =
      [("T")] ∧
    beforeHookFires (run ⟨[Entry.single (mkOkStep ("S") w1), Entry.single (mkOkStep ("T") w2)],
        1, 1, 1, 1⟩ false [] ⟨[(("S"), ⟨StepStatus.completed, some w3⟩)], [], []⟩).1.trace =
      List.replicate 1 ("T") ∧
    afterHookFires (run ⟨[Entry.single (mkOkStep ("S") w1), Entry.single (mkOkStep ("T") w2)],
        1, 1, 1, 1⟩ false [] ⟨[(("S"), ⟨StepStatus.completed, some w3⟩)], [], []⟩).1.trace =
      List.replicate 1 ("T") :=
  c5_idempotent_replay (mkOkStep ("S") w1) (mkOkStep ("T") w2) w3 w2
    [(("S"), ⟨StepStatus.completed, some w3⟩)] [] 1 1 1 1 []
    (by decide) (by decide) (fun _ => rfl) rfl (by decide)

-- ---------------------------------------------------------------------------
-- C6
-- ---------------------------------------------------------------------------

/-- Claim C6: a step B whose execute returns a value that is not
round-trippable through the JSON interchange encoding makes the run raise
a serialization error naming B before the result is persisted (no
checkpoint write ever happens under B's key), handled exactly like an
ordinary execute failure: error hooks fire for B, the prior completed step
A is compensated, and the serialization error is surfaced to the caller. -/
theorem c6_serialization_guard
    (A B : SagaStep) (vA vB : Value) (r0 : Results)
    (nb na ne nc : Nat) (scheds : List (List Nat))
    (hmA : A.metadata = none) (hmB : B.metadata = none)
    (hAB : A.name ≠ B.name)
    (hA : ∀ ctx, A.execute ctx = ExecOutcome.ok vA) (hvA : vA.serializable = true)
    (hB : ∀ ctx, B.execute ctx = ExecOutcome.ok vB) (hvB : vB.serializable = false)
    (hAc : ∀ ctx r n, A.compensate ctx r n = none) :
    (run ⟨[Entry.single A, Entry.single B], nb, na, ne, nc⟩ false scheds
        ⟨[], r0, []⟩).2 = RunOutcome.failed (SagaError.serialization B.name) ∧
    compCalls (run ⟨[Entry.single A, Entry.single B], nb, na, ne, nc⟩ false scheds
        ⟨[], r0, []⟩).1.trace = [(A.name, 0)] ∧
    saveKeys (run ⟨[Entry.single A, Entry.single B], nb, na, ne, nc⟩ false scheds
        ⟨[], r0, []⟩).1.trace = [A.name, A.name ++ ":compensate"] ∧
    errHookFires (run ⟨[Entry.single A, Entry.single B], nb, na, ne, nc⟩ false scheds
        ⟨[], r0, []⟩).1.trace = List.replicate ne B.name := by
  simp [run, runEntries, runStepSeq, runStepFresh, seqCatch, rollback, rollbackAux,
    compensateLoop, shouldSkipComp_ite, shouldSkipComp_none, shouldSkipComp_completed,
    alookup_ite, aset_ite, emit, fireHooks, saveStateT,
    stepIdemKey, stepCompRetries, DEFAULT_COMPENSATION_RETRIES,
    assertJsonSerializable, isJsonSerializable, aset, alookup,
    hmA, hmB, hA, hB, hvA, hvB, hAc, hAB, Ne.symm hAB,
    ne_compKey_self A.name,
    compCalls, compCallP, saveKeys, saveKeyP, errHookFires, errHookP,
    filterMap_comp_none, filterMap_comp_const]

/-- Witness for C6 at a concrete two-step saga whose second step returns a
non-serializable value. -/
theorem c6_serialization_guard_witness :
    (run ⟨[Entry.single (mkOkStep ("A") w1), Entry.single (mkOkStep ("B") wBad)],
        1, 1, 1, 1⟩ false [] ⟨[], [], []⟩).2 =
      RunOutcome.failed (SagaError.serialization ("B")) ∧
    compCalls (run ⟨[Entry.single (mkOkStep ("A") w1), Entry.single (mkOkStep ("B") wBad)],
        1, 1, 1, 1⟩ false [] ⟨[], [], []⟩).1.trace = [(("A"), 0)] ∧
    saveKeys (run ⟨[Entry.single (mkOkStep ("A") w1), Entry.single (mkOkStep ("B") wBad)],
        1, 1, 1, 1⟩ false [] ⟨[], [], []⟩).1.trace = [("A"), ("A") ++ ":compensate"] ∧
    errHookFires (run ⟨[Entry.single (mkOkStep ("A") w1), Entry.single (mkOkStep ("B") wBad)],
        1, 1, 1, 1⟩ false [] ⟨[], [], []⟩).1.trace = List.replicate 1 ("B") :=
  c6_serialization_guard (mkOkStep ("A") w1) (mkOkStep ("B") wBad) w1 wBad []
    1 1 1 1 [] rfl rfl (by decide) (fun _ => rfl) rfl (fun _ => rfl) rfl
    (fun _ _ _ => rfl)

-- ---------------------------------------------------------------------------
-- C7
-- ---------------------------------------------------------------------------

/-- Claim C7: `run` with the dry-run flag leaves the state untouched (no
step call, no hook, no checkpoint access — the returned state is exactly
the input state, so not a single event is emitted) and returns a plan with
one descriptor per step — name, optional description, skip-on-dry-run
flag, group members flattened in place and tagged as parallel — whose
step-name order matches declaration order exactly. -/
theorem c7_dry_run_purity (ex : Executor) (scheds : List (List Nat))
    (st : EngineState) :
    run ex true scheds st = (st, RunOutcome.dryRun (dryRunOf ex.definition)) ∧
    dryRunOf ex.definition =
      (flattenEntries ex.definition).map (fun p => planEntryOf p.1 p.2) ∧
    (dryRunOf ex.definition).map PlanEntry.name = declaredNames ex.definition := by
  refine ⟨by simp [run], ?_, ?_⟩
  · induction ex.definition with
    | nil => rfl
    | cons entry rest ih =>
      cases entry with
      | single s => simp [dryRunOf, flattenEntries, ih]
      | group gs => simp [dryRunOf, flattenEntries, ih, List.map_map]
  · induction ex.definition with
    | nil => rfl
    | cons entry rest ih =>
      cases entry with
      | single s => simp [dryRunOf, declaredNames, ih, planEntryOf]
      | group gs =>
        simp [dryRunOf, declaredNames, ih, List.map_map, planEntryOf, Function.comp]

-- ---------------------------------------------------------------------------
-- C9
-- ---------------------------------------------------------------------------

/-- `resume`'s `find` callback skips parallel groups, so a name that is
not among the sequential entries is never found. -/
theorem findSeqStep_eq_none (d : List Entry) (n : String)
    (h : n ∉ seqNames d) : findSeqStep d n = none := by
  induction d with
  | nil => rfl
  | cons entry rest ih =>
    cases entry with
    | single s =>
      have hs : s.name ≠ n := by
        intro hh
        exact h (by simp [seqNames, hh])
      simp only [findSeqStep, if_neg hs]
      exact ih (fun hh => h (by simp [seqNames, hh]))
    | group gs =>
      simp only [findSeqStep]
      exact ih (fun hh => h (by simp [seqNames, hh]))

/-- Claim C9: `resume` searches only the sequential entries of the
definition.  If the pending-step marker names a step that exists only
inside a concurrent group, `resume` throws the "pending step not found in
definition" error — without resuming anything: the returned state differs
from the input state only by the marker-lookup trace event. -/
theorem c9_resume_skips_groups
    (ex : Executor) (st : EngineState) (v approved : Value) (name : String)
    (scheds : List (List Nat))
    (hmk : alookup st.store HITL_PENDING_KEY =
      some ⟨StepStatus.completed, some v⟩)
    (htag : v.tag = name)
    (hseq : name ∉ seqNames ex.definition)
    (hgrp : name ∈ groupMemberNames ex.definition) :
    resume ex approved scheds st =
      (emit st (Event.loadState HITL_PENDING_KEY
        (some ⟨StepStatus.completed, some v⟩)),
       RunOutcome.failed (SagaError.stepNotFound name)) := by
  have hfind := findSeqStep_eq_none ex.definition name hseq
  simp [resume, hmk, htag, hfind, emit]

/-- Witness for C9: the marker names a step that only exists inside a
group. -/
theorem c9_resume_skips_groups_witness :
    resume ⟨[Entry.single (mkOkStep ("A") w1), Entry.group [mkOkStep ("G") w2]],
        0, 0, 0, 0⟩ w3 []
      ⟨[((HITL_PENDING_KEY), ⟨StepStatus.completed, some ⟨"G", true⟩⟩)], [], []⟩ =
      (emit ⟨[((HITL_PENDING_KEY), ⟨StepStatus.completed, some ⟨"G", true⟩⟩)], [], []⟩
        (Event.loadState HITL_PENDING_KEY
          (some ⟨StepStatus.completed, some ⟨"G", true⟩⟩)),
       RunOutcome.failed (SagaError.stepNotFound ("G"))) :=
  c9_resume_skips_groups
    ⟨[Entry.single (mkOkStep ("A") w1), Entry.group [mkOkStep ("G") w2]], 0, 0, 0, 0⟩
    ⟨[((HITL_PENDING_KEY), ⟨StepStatus.completed, some ⟨"G", true⟩⟩)], [], []⟩
    ⟨"G", true⟩ w3 ("G") [] (by decide) rfl (by decide) (by decide)

-- ---------------------------------------------------------------------------
-- C2
-- ---------------------------------------------------------------------------

theorem trace_if_sleep (c : Prop) [Decidable c] (tr : List Event) (e : Event) :
    (if c then tr ++ [e] else tr) = tr ++ (if c then [e] else []) := by
  split <;> simp

/-- The retry loop when the first `k` attempts fail and attempt `k`
succeeds, within the retry budget: all `k + 1` compensate calls and their
backoff sleeps happen, then the compensation hooks and the compensation
checkpoint, and the loop reports success. -/
theorem compensateLoop_succeeds (ex : Executor) (rec : CompletedRec)
    (es : Nat → SagaError) :
    ∀ (k attempt fuel : Nat) (st : EngineState),
    k ≤ fuel →
    (∀ j, j < k →
      rec.step.compensate st.results rec.result (attempt + j) = some (es (attempt + j))) →
    rec.step.compensate st.results rec.result (attempt + k) = none →
    compensateLoop ex rec attempt fuel st =
      (⟨aset st.store (rec.idemKey ++ ":compensate") ⟨StepStatus.compensated, none⟩,
        st.results,
        st.trace ++ failEvts rec.step.name attempt k
          ++ attemptEvt rec.step.name (attempt + k)
          ++ (List.range ex.nComp).map (Event.hookComp rec.step.name)
          ++ [Event.saveState (rec.idemKey ++ ":compensate")
            ⟨StepStatus.compensated, none⟩]⟩,
       none) := by
  intro k
  induction k with
  | zero =>
    intro attempt fuel st _ _ hok
    have hok' : rec.step.compensate st.results rec.result attempt = none := by
      simpa using hok
    rw [compensateLoop]
    simp [emit, fireHooks, saveStateT, store_ite, results_ite, trace_ite,
      trace_if_sleep, attemptEvt, failEvts, hok']
  | succ k ih =>
    intro attempt fuel st hkf hfail hok
    rcases fuel with _ | f
    · omega
    have h0 : rec.step.compensate st.results rec.result attempt = some (es attempt) := by
      simpa using hfail 0 (by omega)
    have hrec := ih (attempt + 1) f
      ⟨st.store, st.results, st.trace ++ attemptEvt rec.step.name attempt⟩ (by omega)
      (fun j hj => by
        simpa [Nat.add_assoc, Nat.add_comm, Nat.add_left_comm] using
          hfail (j + 1) (by omega))
      (by simpa [Nat.add_assoc, Nat.add_comm, Nat.add_left_comm] using hok)
    simp only [attemptEvt, List.append_assoc] at hrec
    rw [compensateLoop]
    simp only [emit, store_ite, results_ite, trace_ite, ite_self, h0]
    simp [trace_if_sleep, hrec, attemptEvt, failEvts, List.append_assoc,
      Nat.add_assoc, Nat.add_comm, Nat.add_left_comm]

/-- The retry loop when every attempt fails: `fuel + 1` compensate calls
happen with their backoff sleeps, no compensation checkpoint is written,
and the loop reports the last attempt's error. -/
theorem compensateLoop_exhausts (ex : Executor) (rec : CompletedRec)
    (es : Nat → SagaError) :
    ∀ (fuel attempt : Nat) (st : EngineState),
    (∀ j, j ≤ fuel →
      rec.step.compensate st.results rec.result (attempt + j) = some (es (attempt + j))) →
    compensateLoop ex rec attempt fuel st =
      (⟨st.store, st.results, st.trace ++ failEvts rec.step.name attempt (fuel + 1)⟩,
       some (es (attempt + fuel))) := by
  intro fuel
  induction fuel with
  | zero =>
    intro attempt st hfail
    have h0 : rec.step.compensate st.results rec.result attempt = some (es attempt) := by
      simpa using hfail 0 (by omega)
    rw [compensateLoop]
    simp [emit, store_ite, results_ite, trace_ite, trace_if_sleep,
      attemptEvt, failEvts, h0]
  | succ f ih =>
    intro attempt st hfail
    have h0 : rec.step.compensate st.results rec.result attempt = some (es attempt) := by
      simpa using hfail 0 (by omega)
    have hrec := ih (attempt + 1)
      ⟨st.store, st.results, st.trace ++ attemptEvt rec.step.name attempt⟩
      (fun j hj => by
        simpa [Nat.add_assoc, Nat.add_comm, Nat.add_left_comm] using
          hfail (j + 1) (by omega))
    simp only [attemptEvt, List.append_assoc] at hrec
    rw [compensateLoop]
    simp only [emit, store_ite, results_ite, trace_ite, ite_self, h0]
    simp [trace_if_sleep, hrec, attemptEvt, failEvts, List.append_assoc,
      Nat.add_assoc, Nat.add_comm, Nat.add_left_comm]

theorem compCalls_cons (e : Event) (tr : List Event) :
    compCalls (e :: tr) = (compCallP e).toList ++ compCalls tr := by
  cases h : compCallP e <;> simp [compCalls, List.filterMap_cons, h]

theorem compCalls_nil : compCalls [] = [] := rfl

theorem sleeps_cons (e : Event) (tr : List Event) :
    sleeps (e :: tr) = (sleepP e).toList ++ sleeps tr := by
  cases h : sleepP e <;> simp [sleeps, List.filterMap_cons, h]

theorem sleeps_nil : sleeps [] = [] := rfl

theorem compCalls_map_none {α : Type} (mk : α → Event) (l : List α)
    (h : ∀ a, compCallP (mk a) = none) : compCalls (l.map mk) = [] := by
  simp only [compCalls, List.filterMap_map]
  exact filterMap_comp_none _ _ _ h

theorem sleeps_map_none {α : Type} (mk : α → Event) (l : List α)
    (h : ∀ a, sleepP (mk a) = none) : sleeps (l.map mk) = [] := by
  simp only [sleeps, List.filterMap_map]
  exact filterMap_comp_none _ _ _ h

theorem compCalls_attemptEvt (name : String) (j : Nat) :
    compCalls (attemptEvt name j) = [(name, j)] := by
  by_cases h : j > 0 <;> simp [attemptEvt, compCalls, compCallP, h]

theorem sleeps_attemptEvt (name : String) (j : Nat) :
    sleeps (attemptEvt name j) =
      if j > 0 then [100 * 2 ^ (j - 1)] else [] := by
  by_cases h : j > 0 <;> simp [attemptEvt, sleeps, sleepP, h]

theorem compCalls_failEvts (name : String) :
    ∀ (k attempt : Nat), compCalls (failEvts name attempt k) =
      (List.range k).map (fun j => (name, attempt + j)) := by
  intro k
  induction k with
  | zero => intro attempt; simp [failEvts, compCalls]
  | succ k ih =>
    intro attempt
    simp [failEvts, compCalls_append, compCalls_attemptEvt, ih,
      List.range_succ_eq_map, List.map_map, Function.comp,
      Nat.add_assoc, Nat.add_comm, Nat.add_left_comm]

theorem sleeps_failEvts_pos (name : String) :
    ∀ (k attempt : Nat), 0 < attempt → sleeps (failEvts name attempt k) =
      (List.range k).map (fun j => 100 * 2 ^ (attempt + j - 1)) := by
  intro k
  induction k with
  | zero => intro attempt _; simp [failEvts, sleeps]
  | succ k ih =>
    intro attempt ha
    have h1 : (0 : Nat) < attempt + 1 := by omega
    simp [failEvts, sleeps_append, sleeps_attemptEvt, ha, ih (attempt + 1) h1,
      List.range_succ_eq_map, List.map_map, Function.comp]

theorem sleeps_failEvts_one (name : String) (k : Nat) :
    sleeps (failEvts name 1 k) = (List.range k).map (fun j => 100 * 2 ^ j) := by
  simpa using sleeps_failEvts_pos name k 1 (by omega)

theorem sleeps_failEvts_zero (name : String) (k : Nat) :
    sleeps (failEvts name 0 k) = (List.range (k - 1)).map (fun j => 100 * 2 ^ j) := by
  cases k with
  | zero => simp [failEvts, sleeps]
  | succ k =>
    simp [failEvts, sleeps_append, sleeps_attemptEvt,
      sleeps_failEvts_pos name k 1 (by omega)]

/-- C2, scenario one: a completed step A whose compensate fails on the
first `k` attempts and succeeds on attempt `k`, within its retry budget
`m = compensationRetries`: rollback makes exactly `k + 1` compensate
calls, sleeping `100·2^(j-1)` ms before the j-th retry, and the caller
sees B's original execute error. -/
theorem c2_retry_success
    (A B : SagaStep) (vA : Value) (e : SagaError) (es : Nat → SagaError)
    (r0 : Results) (nb na ne nc : Nat) (scheds : List (List Nat)) (m k : Nat)
    (hmA : A.metadata = some ⟨none, none, some m, none, none⟩)
    (hmB : B.metadata = none)
    (hAB : A.name ≠ B.name)
    (hA : ∀ ctx, A.execute ctx = ExecOutcome.ok vA) (hvA : vA.serializable = true)
    (hB : ∀ ctx, B.execute ctx = ExecOutcome.error e)
    (hne : e ≠ SagaError.pendingApproval)
    (hk : k ≤ m)
    (hfail : ∀ ctx r j, j < k → A.compensate ctx r j = some (es j))
    (hok : ∀ ctx r, A.compensate ctx r k = none) :
    (run ⟨[Entry.single A, Entry.single B], nb, na, ne, nc⟩ false scheds
        ⟨[], r0, []⟩).2 = RunOutcome.failed e ∧
    compCalls (run ⟨[Entry.single A, Entry.single B], nb, na, ne, nc⟩ false scheds
        ⟨[], r0, []⟩).1.trace = (List.range (k + 1)).map (fun j => (A.name, j)) ∧
    sleeps (run ⟨[Entry.single A, Entry.single B], nb, na, ne, nc⟩ false scheds
        ⟨[], r0, []⟩).1.trace = (List.range k).map (fun j => 100 * 2 ^ j) := by
  have hstep : stepIdemKey A = A.name := by simp [stepIdemKey, hmA]
  have hret : stepCompRetries A = m := by simp [stepCompRetries, hmA]
  have hstepB : stepIdemKey B = B.name := by simp [stepIdemKey, hmB]
  simp [run, runEntries, runStepSeq, runStepFresh, seqCatch, rollback, rollbackAux,
    shouldSkipComp_ite, shouldSkipComp_none, shouldSkipComp_completed,
    alookup_ite, aset_ite, emit, fireHooks, saveStateT, hstep, hret, hstepB,
    assertJsonSerializable, isJsonSerializable, aset, alookup,
    hmB, hA, hB, hvA, hne, hAB, Ne.symm hAB,
    ne_compKey_self A.name]
  rw [compensateLoop_succeeds
    ⟨[Entry.single A, Entry.single B], nb, na, ne, nc⟩ ⟨A, vA, A.name⟩ es k 0 m]
  · refine ⟨by simp, ?_, ?_⟩
    · simp [compCalls_cons, compCalls_append, compCalls_nil, compCallP,
        compCalls_map_none, compCalls_failEvts, compCalls_attemptEvt,
        List.range_succ]
    · rcases k with _ | k' <;>
        simp [sleeps_cons, sleeps_append, sleeps_nil, sleepP,
          sleeps_map_none, sleeps_failEvts_zero, sleeps_failEvts_one,
          sleeps_attemptEvt, failEvts, List.range_succ]
  · exact hk
  · intro j hj
    simpa using hfail _ _ j hj
  · simpa using hok _ _

/-- C2, scenario two: a completed step A whose compensate fails on every
one of its `1 + m` attempts: rollback stops, the compensation-failure
error naming A and the last underlying cause replaces B's original
execute error, and the still-earlier completed step Z is never
compensated. -/
theorem c2_retry_exhaustion
    (Z A B : SagaStep) (vZ vA : Value) (e : SagaError) (es : Nat → SagaError)
    (r0 : Results) (nb na ne nc : Nat) (scheds : List (List Nat)) (m : Nat)
    (hmZ : Z.metadata = none)
    (hmA : A.metadata = some ⟨none, none, some m, none, none⟩)
    (hmB : B.metadata = none)
    (hZA : Z.name ≠ A.name) (hZB : Z.name ≠ B.name) (hAB : A.name ≠ B.name)
    (hZ : ∀ ctx, Z.execute ctx = ExecOutcome.ok vZ) (hvZ : vZ.serializable = true)
    (hA : ∀ ctx, A.execute ctx = ExecOutcome.ok vA) (hvA : vA.serializable = true)
    (hB : ∀ ctx, B.execute ctx = ExecOutcome.error e)
    (hne : e ≠ SagaError.pendingApproval)
    (hfail : ∀ ctx r j, A.compensate ctx r j = some (es j)) :
    (run ⟨[Entry.single Z, Entry.single A, Entry.single B], nb, na, ne, nc⟩ false scheds
        ⟨[], r0, []⟩).2 = RunOutcome.failed (SagaError.compensation A.name (es m)) ∧
    compCalls (run ⟨[Entry.single Z, Entry.single A, Entry.single B], nb, na, ne, nc⟩
        false scheds ⟨[], r0, []⟩).1.trace =
      (List.range (m + 1)).map (fun j => (A.name, j)) ∧
    Z.name ∉ compCallNames (run ⟨[Entry.single Z, Entry.single A, Entry.single B],
        nb, na, ne, nc⟩ false scheds ⟨[], r0, []⟩).1.trace ∧
    sleeps (run ⟨[Entry.single Z, Entry.single A, Entry.single B], nb, na, ne, nc⟩
        false scheds ⟨[], r0, []⟩).1.trace = (List.range m).map (fun j => 100 * 2 ^ j) := by
  have hstepZ : stepIdemKey Z = Z.name := by simp [stepIdemKey, hmZ]
  have hstepA : stepIdemKey A = A.name := by simp [stepIdemKey, hmA]
  have hstepB : stepIdemKey B = B.name := by simp [stepIdemKey, hmB]
  have hret : stepCompRetries A = m := by simp [stepCompRetries, hmA]
  simp [run, runEntries, runStepSeq, runStepFresh, seqCatch, rollback, rollbackAux,
    shouldSkipComp_ite, shouldSkipComp_none, shouldSkipComp_completed,
    alookup_ite, aset_ite, emit, fireHooks, saveStateT,
    hstepZ, hstepA, hstepB, hret,
    assertJsonSerializable, isJsonSerializable, aset, alookup,
    hZ, hA, hB, hvZ, hvA, hne, hZA, hZB, hAB,
    Ne.symm hZA, Ne.symm hZB, Ne.symm hAB,
    ne_compKey_self A.name, ne_compKey_self Z.name]
  rw [compensateLoop_exhausts
    ⟨[Entry.single Z, Entry.single A, Entry.single B], nb, na, ne, nc⟩
    ⟨A, vA, A.name⟩ es m 0]
  · refine ⟨by simp, ?_, ?_, ?_⟩
    · simp [compCalls_cons, compCalls_append, compCalls_nil, compCallP,
        compCalls_map_none, compCalls_failEvts]
    · simp [compCallNames, compCalls_cons, compCalls_append, compCalls_nil, compCallP,
        compCalls_map_none, compCalls_failEvts, hZA]
    · simp [sleeps_cons, sleeps_append, sleeps_nil, sleepP,
        sleeps_map_none, sleeps_failEvts_zero]
  · intro j hj
    simpa using hfail _ _ j

/-- C2, scenario three: with no per-step configuration, the default
budget yields exactly `1 + DEFAULT_COMPENSATION_RETRIES = 4` total
attempts, with backoffs 100, 200, 400 ms. -/
theorem c2_default_total_attempts
    (A B : SagaStep) (vA : Value) (e : SagaError) (es : Nat → SagaError)
    (r0 : Results) (nb na ne nc : Nat) (scheds : List (List Nat))
    (hmA : A.metadata = none) (hmB : B.metadata = none)
    (hAB : A.name ≠ B.name)
    (hA : ∀ ctx, A.execute ctx = ExecOutcome.ok vA) (hvA : vA.serializable = true)
    (hB : ∀ ctx, B.execute ctx = ExecOutcome.error e)
    (hne : e ≠ SagaError.pendingApproval)
    (hfail : ∀ ctx r j, A.compensate ctx r j = some (es j)) :
    (run ⟨[Entry.single A, Entry.single B], nb, na, ne, nc⟩ false scheds
        ⟨[], r0, []⟩).2 = RunOutcome.failed (SagaError.compensation A.name (es 3)) ∧
    compCalls (run ⟨[Entry.single A, Entry.single B], nb, na, ne, nc⟩ false scheds
        ⟨[], r0, []⟩).1.trace = [(A.name, 0), (A.name, 1), (A.name, 2), (A.name, 3)] ∧
    sleeps (run ⟨[Entry.single A, Entry.single B], nb, na, ne, nc⟩ false scheds
        ⟨[], r0, []⟩).1.trace = [100, 200, 400] := by
  simp [run, runEntries, runStepSeq, runStepFresh, seqCatch, rollback, rollbackAux,
    compensateLoop, shouldSkipComp_ite, shouldSkipComp_none, shouldSkipComp_completed,
    alookup_ite, aset_ite, emit, fireHooks, saveStateT,
    stepIdemKey, stepCompRetries, DEFAULT_COMPENSATION_RETRIES,
    assertJsonSerializable, isJsonSerializable, aset, alookup,
    hmA, hmB, hA, hB, hvA, hne, hfail, hAB, Ne.symm hAB,
    ne_compKey_self A.name,
    compCalls, compCallP, sleeps, sleepP, filterMap_comp_none]

/-- Claim C2: the compensation retry/backoff/propagation contract, as the
conjunction of its three scenarios.  (1) A completed step whose compensate
fails `k` times then succeeds (k within the budget) is retried with
backoff `100·2^(attempt-1)` ms and the caller still sees the original
execute error.  (2) If every one of the `1 + compensationRetries` attempts
fails, the compensation-failure error naming the step and its last cause
replaces the original error and rollback stops: the still-earlier
completed step is never compensated.  (3) The default budget is 4 total
attempts with backoffs 100, 200, 400 ms. -/
theorem c2_compensation_retry :
    (∀ (A B : SagaStep) (vA : Value) (e : SagaError) (es : Nat → SagaError)
      (r0 : Results) (nb na ne nc : Nat) (scheds : List (List Nat)) (m k : Nat),
      A.metadata = some ⟨none, none, some m, none, none⟩ →
      B.metadata = none →
      A.name ≠ B.name →
      (∀ ctx, A.execute ctx = ExecOutcome.ok vA) → vA.serializable = true →
      (∀ ctx, B.execute ctx = ExecOutcome.error e) →
      e ≠ SagaError.pendingApproval →
      k ≤ m →
      (∀ ctx r j, j < k → A.compensate ctx r j = some (es j)) →
      (∀ ctx r, A.compensate ctx r k = none) →
      (run ⟨[Entry.single A, Entry.single B], nb, na, ne, nc⟩ false scheds
          ⟨[], r0, []⟩).2 = RunOutcome.failed e ∧
      compCalls (run ⟨[Entry.single A, Entry.single B], nb, na, ne, nc⟩ false scheds
          ⟨[], r0, []⟩).1.trace = (List.range (k + 1)).map (fun j => (A.name, j)) ∧
      sleeps (run ⟨[Entry.single A, Entry.single B], nb, na, ne, nc⟩ false scheds
          ⟨[], r0, []⟩).1.trace = (List.range k).map (fun j => 100 * 2 ^ j)) ∧
    (∀ (Z A B : SagaStep) (vZ vA : Value) (e : SagaError) (es : Nat → SagaError)
      (r0 : Results) (nb na ne nc : Nat) (scheds : List (List Nat)) (m : Nat),
      Z.metadata = none →
      A.metadata = some ⟨none, none, some m, none, none⟩ →
      B.metadata = none →
      Z.name ≠ A.name → Z.name ≠ B.name → A.name ≠ B.name →
      (∀ ctx, Z.execute ctx = ExecOutcome.ok vZ) → vZ.serializable = true →
      (∀ ctx, A.execute ctx = ExecOutcome.ok vA) → vA.serializable = true →
      (∀ ctx, B.execute ctx = ExecOutcome.error e) →
      e ≠ SagaError.pendingApproval →
      (∀ ctx r j, A.compensate ctx r j = some (es j)) →
      (run ⟨[Entry.single Z, Entry.single A, Entry.single B], nb, na, ne, nc⟩
          false scheds ⟨[], r0, []⟩).2 =
        RunOutcome.failed (SagaError.compensation A.name (es m)) ∧
      compCalls (run ⟨[Entry.single Z, Entry.single A, Entry.single B], nb, na, ne, nc⟩
          false scheds ⟨[], r0, []⟩).1.trace =
        (List.range (m + 1)).map (fun j => (A.name, j)) ∧
      Z.name ∉ compCallNames (run ⟨[Entry.single Z, Entry.single A, Entry.single B],
          nb, na, ne, nc⟩ false scheds ⟨[], r0, []⟩).1.trace ∧
      sleeps (run ⟨[Entry.single Z, Entry.single A, Entry.single B], nb, na, ne, nc⟩
          false scheds ⟨[], r0, []⟩).1.trace =
        (List.range m).map (fun j => 100 * 2 ^ j)) ∧
    (∀ (A B : SagaStep) (vA : Value) (e : SagaError) (es : Nat → SagaError)
      (r0 : Results) (nb na ne nc : Nat) (scheds : List (List Nat)),
      A.metadata = none →
      B.metadata = none →
      A.name ≠ B.name →
      (∀ ctx, A.execute ctx = ExecOutcome.ok vA) → vA.serializable = true →
      (∀ ctx, B.execute ctx = ExecOutcome.error e) →
      e ≠ SagaError.pendingApproval →
      (∀ ctx r j, A.compensate ctx r j = some (es j)) →
      (run ⟨[Entry.single A, Entry.single B], nb, na, ne, nc⟩ false scheds
          ⟨[], r0, []⟩).2 = RunOutcome.failed (SagaError.compensation A.name (es 3)) ∧
      compCalls (run ⟨[Entry.single A, Entry.single B], nb, na, ne, nc⟩ false scheds
          ⟨[], r0, []⟩).1.trace = [(A.name, 0), (A.name, 1), (A.name, 2), (A.name, 3)] ∧
      sleeps (run ⟨[Entry.single A, Entry.single B], nb, na, ne, nc⟩ false scheds
          ⟨[], r0, []⟩).1.trace = [100, 200, 400]) :=
  ⟨fun A B vA e es r0 nb na ne nc scheds m k h1 h2 h3 h4 h5 h6 h7 h8 h9 h10 =>
      c2_retry_success A B vA e es r0 nb na ne nc scheds m k
        h1 h2 h3 h4 h5 h6 h7 h8 h9 h10,
    fun Z A B vZ vA e es r0 nb na ne nc scheds m h1 h2 h3 h4 h5 h6 h7 h8 h9 h10
        h11 h12 h13 =>
      c2_retry_exhaustion Z A B vZ vA e es r0 nb na ne nc scheds m
        h1 h2 h3 h4 h5 h6 h7 h8 h9 h10 h11 h12 h13,
    fun A B vA e es r0 nb na ne nc scheds h1 h2 h3 h4 h5 h6 h7 h8 =>
      c2_default_total_attempts A B vA e es r0 nb na ne nc scheds
        h1 h2 h3 h4 h5 h6 h7 h8⟩

/-- Witness for C2, one concrete instance per scenario: a step retried
twice before succeeding (budget 3), a step with budget 1 exhausting both
attempts while the earlier step Z stays uncompensated, and a
default-budget step making exactly 4 attempts. -/
theorem c2_compensation_retry_witness :
    ((run ⟨[Entry.single (mkRetryStep ("A") w1 2 3), Entry.single (mkFailStep ("B") boom)],
        1, 1, 1, 1⟩ false [] ⟨[], [], []⟩).2 = RunOutcome.failed boom ∧
      compCalls (run ⟨[Entry.single (mkRetryStep ("A") w1 2 3),
          Entry.single (mkFailStep ("B") boom)],
          1, 1, 1, 1⟩ false [] ⟨[], [], []⟩).1.trace = [(("A"), 0), (("A"), 1), (("A"), 2)] ∧
      sleeps (run ⟨[Entry.single (mkRetryStep ("A") w1 2 3),
          Entry.single (mkFailStep ("B") boom)],
          1, 1, 1, 1⟩ false [] ⟨[], [], []⟩).1.trace = [100, 200]) ∧
    ((run ⟨[Entry.single (mkOkStep ("Z") w1), Entry.single (mkBadCompStep ("A") w2 (some 1)),
        Entry.single (mkFailStep ("B") boom)], 1, 1, 1, 1⟩ false []
        ⟨[], [], []⟩).2 =
        RunOutcome.failed (SagaError.compensation ("A") (SagaError.ordinary (toString 1))) ∧
      ("Z") ∉ compCallNames (run ⟨[Entry.single (mkOkStep ("Z") w1),
          Entry.single (mkBadCompStep ("A") w2 (some 1)),
          Entry.single (mkFailStep ("B") boom)], 1, 1, 1, 1⟩ false []
          ⟨[], [], []⟩).1.trace ∧
      sleeps (run ⟨[Entry.single (mkOkStep ("Z") w1),
          Entry.single (mkBadCompStep ("A") w2 (some 1)),
          Entry.single (mkFailStep ("B") boom)], 1, 1, 1, 1⟩ false []
          ⟨[], [], []⟩).1.trace = [100]) ∧
    ((run ⟨[Entry.single (mkDefaultBadCompStep ("A") w1), Entry.single (mkFailStep ("B") boom)],
        1, 1, 1, 1⟩ false [] ⟨[], [], []⟩).2 =
        RunOutcome.failed (SagaError.compensation ("A") (SagaError.ordinary (toString 3))) ∧
      compCalls (run ⟨[Entry.single (mkDefaultBadCompStep ("A") w1),
          Entry.single (mkFailStep ("B") boom)],
          1, 1, 1, 1⟩ false [] ⟨[], [], []⟩).1.trace =
        [(("A"), 0), (("A"), 1), (("A"), 2), (("A"), 3)] ∧
      sleeps (run ⟨[Entry.single (mkDefaultBadCompStep ("A") w1),
          Entry.single (mkFailStep ("B") boom)],
          1, 1, 1, 1⟩ false [] ⟨[], [], []⟩).1.trace = [100, 200, 400]) := by
  have h := c2_compensation_retry
  have h1 := h.1 (mkRetryStep ("A") w1 2 3) (mkFailStep ("B") boom) w1 boom
    (fun j => SagaError.ordinary (toString j)) [] 1 1 1 1 [] 3 2
    rfl rfl (by decide) (fun _ => rfl) rfl (fun _ => rfl) (by decide) (by omega)
    (fun ctx r j hj => by simp [mkRetryStep, hj]) (fun ctx r => by simp [mkRetryStep])
  have h2 := h.2.1 (mkOkStep ("Z") w1) (mkBadCompStep ("A") w2 (some 1))
    (mkFailStep ("B") boom) w1 w2 boom (fun j => SagaError.ordinary (toString j))
    [] 1 1 1 1 [] 1 rfl rfl rfl (by decide) (by decide) (by decide)
    (fun _ => rfl) rfl (fun _ => rfl) rfl (fun _ => rfl) (by decide)
    (fun ctx r j => rfl)
  have h3 := h.2.2 (mkDefaultBadCompStep ("A") w1) (mkFailStep ("B") boom) w1 boom
    (fun j => SagaError.ordinary (toString j)) [] 1 1 1 1 []
    rfl rfl (by decide) (fun _ => rfl) rfl (fun _ => rfl) (by decide)
    (fun ctx r j => rfl)
  exact ⟨⟨h1.1, h1.2.1.trans (by decide), h1.2.2.trans (by decide)⟩,
    ⟨h2.1, h2.2.2.1, h2.2.2.2.trans (by decide)⟩,
    ⟨h3.1, h3.2.1, h3.2.2⟩⟩

-- ---------------------------------------------------------------------------
-- C3
-- ---------------------------------------------------------------------------

theorem perm_range3_mem (s : List Nat) (h : s.Perm (List.range 3)) :
    s ∈ permsOf3 := by
  have hlen : s.length = 3 := by simpa using h.length_eq
  have hmem : ∀ x ∈ s, x ∈ [0, 1, 2] := fun x hx => by
    have := h.mem_iff.1 hx
    simpa [show List.range 3 = [0, 1, 2] from by decide] using this
  have hnd : s.Nodup := h.nodup_iff.2 (by decide)
  rcases s with _ | ⟨a, s⟩
  · simp at hlen
  rcases s with _ | ⟨b, s⟩
  · simp at hlen
  rcases s with _ | ⟨c, s⟩
  · simp at hlen
  rcases s with _ | ⟨d, s⟩
  swap
  · simp at hlen
  have ha := hmem a (by simp)
  have hb := hmem b (by simp)
  have hc := hmem c (by simp)
  simp at ha hb hc
  simp [List.nodup_cons] at hnd
  rcases ha with rfl | rfl | rfl <;> rcases hb with rfl | rfl | rfl <;>
    rcases hc with rfl | rfl | rfl <;> simp_all [permsOf3]

/-- Every schedule normalises to one of the six interleavings of a
three-member group. -/
theorem normalizeSched3_mem (s : List Nat) : normalizeSched 3 s ∈ permsOf3 := by
  unfold normalizeSched
  split
  · exact perm_range3_mem s (by assumption)
  · simp [show List.range 3 = [0, 1, 2] from by decide, permsOf3]

/-- Claim C3: a saga [P, group [G1, G2, G3]] where G1 succeeds and G2, G3
both fail (with arbitrary errors — the approval-required signal included),
under every member interleaving: all members settle (each member's execute
is called exactly once, in schedule order, after P), error hooks then fire
for G2 and G3 in declaration order, the full completed list — the prior
sequential step P plus the successful sibling G1 — is compensated in
reverse order [G1, P], the failure raised is G2's (first by declaration
position, not by completion time) and a failed member's own compensate is
never called. -/
theorem c3_group_partial_failure
    (P G1 G2 G3 : SagaStep) (vP v1 : Value) (e2 e3 : SagaError)
    (r0 : Results) (nb na ne nc : Nat) (sched : List Nat)
    (hmP : P.metadata = none) (hm1 : G1.metadata = none)
    (hm2 : G2.metadata = none) (hm3 : G3.metadata = none)
    (hP1 : P.name ≠ G1.name) (hP2 : P.name ≠ G2.name) (hP3 : P.name ≠ G3.name)
    (h12 : G1.name ≠ G2.name) (h13 : G1.name ≠ G3.name) (h23 : G2.name ≠ G3.name)
    (hP : ∀ ctx, P.execute ctx = ExecOutcome.ok vP) (hvP : vP.serializable = true)
    (hG1 : ∀ ctx, G1.execute ctx = ExecOutcome.ok v1) (hv1 : v1.serializable = true)
    (hG2 : ∀ ctx, G2.execute ctx = ExecOutcome.error e2)
    (hG3 : ∀ ctx, G3.execute ctx = ExecOutcome.error e3)
    (hPc : ∀ ctx r n, P.compensate ctx r n = none)
    (h1c : ∀ ctx r n, G1.compensate ctx r n = none) :
    (run ⟨[Entry.single P, Entry.group [G1, G2, G3]], nb, na, ne, nc⟩ false [sched]
        ⟨[], r0, []⟩).2 = RunOutcome.failed e2 ∧
    compCalls (run ⟨[Entry.single P, Entry.group [G1, G2, G3]], nb, na, ne, nc⟩
        false [sched] ⟨[], r0, []⟩).1.trace = [(G1.name, 0), (P.name, 0)] ∧
    errHookFires (run ⟨[Entry.single P, Entry.group [G1, G2, G3]], nb, na, ne, nc⟩
        false [sched] ⟨[], r0, []⟩).1.trace =
      List.replicate ne G2.name ++ List.replicate ne G3.name ∧
    execCalls (run ⟨[Entry.single P, Entry.group [G1, G2, G3]], nb, na, ne, nc⟩
        false [sched] ⟨[], r0, []⟩).1.trace =
      P.name :: (normalizeSched 3 sched).map
        (fun i => ([G1.name, G2.name, G3.name].getD i P.name)) := by
  have hs := normalizeSched3_mem sched
  simp only [permsOf3, List.mem_cons, List.not_mem_nil, or_false] at hs
  rcases hs with hs | hs | hs | hs | hs | hs <;>
    simp [run, runEntries, runStepSeq, runStepFresh, seqCatch,
      executeParallelGroup, runGroupMembers, runGroupMember, groupMemberFresh,
      settleLoop, settledAt, List.enum, List.enumFrom, List.lookup, hs,
      rollback, rollbackAux, compensateLoop,
      shouldSkipComp_ite, shouldSkipComp_none, shouldSkipComp_completed,
      alookup_ite, aset_ite, emit, fireHooks, saveStateT,
      stepIdemKey, stepCompRetries, DEFAULT_COMPENSATION_RETRIES,
      assertJsonSerializable, isJsonSerializable, aset, alookup,
      hmP, hm1, hm2, hm3, hP, hG1, hG2, hG3, hvP, hv1, hPc, h1c,
      hP1, hP2, hP3, h12, h13, h23,
      Ne.symm hP1, Ne.symm hP2, Ne.symm hP3, Ne.symm h12, Ne.symm h13, Ne.symm h23,
      compKey_ne hP1, compKey_ne (Ne.symm hP1),
      ne_compKey_self P.name, ne_compKey_self G1.name,
      compCalls, compCallP, errHookFires, errHookP, execCalls, execCallP,
      filterMap_comp_none, filterMap_comp_const]

/-- Witness for C3, with the schedule [2,0,1]: G3 settles first in time,
yet the raised failure is G2's, the first failed member by declaration
position. -/
theorem c3_group_partial_failure_witness :
    (run ⟨[Entry.single (mkOkStep ("P") w1),
        Entry.group [mkOkStep ("G1") w2, mkFailStep ("G2") boom,
          mkFailStep ("G3") (SagaError.ordinary ("late"))]],
        1, 1, 1, 1⟩ false [[2, 0, 1]] ⟨[], [], []⟩).2 = RunOutcome.failed boom ∧
    compCalls (run ⟨[Entry.single (mkOkStep ("P") w1),
        Entry.group [mkOkStep ("G1") w2, mkFailStep ("G2") boom,
          mkFailStep ("G3") (SagaError.ordinary ("late"))]],
        1, 1, 1, 1⟩ false [[2, 0, 1]] ⟨[], [], []⟩).1.trace =
      [(("G1"), 0), (("P"), 0)] ∧
    errHookFires (run ⟨[Entry.single (mkOkStep ("P") w1),
        Entry.group [mkOkStep ("G1") w2, mkFailStep ("G2") boom,
          mkFailStep ("G3") (SagaError.ordinary ("late"))]],
        1, 1, 1, 1⟩ false [[2, 0, 1]] ⟨[], [], []⟩).1.trace =
      List.replicate 1 ("G2") ++ List.replicate 1 ("G3") ∧
    execCalls (run ⟨[Entry.single (mkOkStep ("P") w1),
        Entry.group [mkOkStep ("G1") w2, mkFailStep ("G2") boom,
          mkFailStep ("G3") (SagaError.ordinary ("late"))]],
        1, 1, 1, 1⟩ false [[2, 0, 1]] ⟨[], [], []⟩).1.trace =
      [("P"), ("G3"), ("G1"), ("G2")] := by
  have h := c3_group_partial_failure (mkOkStep ("P") w1) (mkOkStep ("G1") w2)
    (mkFailStep ("G2") boom) (mkFailStep ("G3") (SagaError.ordinary ("late")))
    w1 w2 boom (SagaError.ordinary ("late")) [] 1 1 1 1 [2, 0, 1]
    rfl rfl rfl rfl (by decide) (by decide) (by decide) (by decide) (by decide)
    (by decide) (fun _ => rfl) rfl (fun _ => rfl) rfl (fun _ => rfl) (fun _ => rfl)
    (fun _ _ _ => rfl) (fun _ _ _ => rfl)
  exact ⟨h.1, h.2.1, h.2.2.1, h.2.2.2.trans (by decide)⟩

-- ---------------------------------------------------------------------------
-- C4
-- ---------------------------------------------------------------------------

/-- Claim C4: the HITL round trip on [A, B pending, C].  The first run
persists B's checkpoint as pending_approval plus the reserved marker and
returns the pending descriptor naming B, with no compensate call and with
no later entry examined (the store reads are exactly A's and B's keys).
`resume(apv)` then stores `apv` as B's completed checkpoint result and at
`results[B]`, clears the marker, and re-runs from the top: the combined
trace shows every step executed exactly once (A and B in the first run —
both replayed silently afterwards — and C in the second), with no
compensation anywhere. -/
theorem c4_hitl_round_trip
    (A B C : SagaStep) (vA vC apv : Value) (r0 : Results)
    (nb na ne nc : Nat) (scheds1 scheds2 : List (List Nat))
    (ex : Executor) (p q : EngineState × RunOutcome)
    (hex : ex = ⟨[Entry.single A, Entry.single B, Entry.single C], nb, na, ne, nc⟩)
    (hp : run ex false scheds1 ⟨[], r0, []⟩ = p)
    (hq : resume ex apv scheds2 p.1 = q)
    (hmA : A.metadata = none) (hmB : B.metadata = none) (hmC : C.metadata = none)
    (hAB : A.name ≠ B.name) (hAC : A.name ≠ C.name) (hBC : B.name ≠ C.name)
    (hAh : A.name ≠ HITL_PENDING_KEY) (hBh : B.name ≠ HITL_PENDING_KEY)
    (hCh : C.name ≠ HITL_PENDING_KEY)
    (hA : ∀ ctx, A.execute ctx = ExecOutcome.ok vA) (hvA : vA.serializable = true)
    (hB : ∀ ctx, B.execute ctx = ExecOutcome.error SagaError.pendingApproval)
    (hC : ∀ ctx, C.execute ctx = ExecOutcome.ok vC) (hvC : vC.serializable = true) :
    p.2 = RunOutcome.pendingApproval B.name ∧
    compCalls p.1.trace = [] ∧
    execCalls p.1.trace = [A.name, B.name] ∧
    loadKeys p.1.trace = [A.name, B.name] ∧
    alookup p.1.store B.name = some ⟨StepStatus.pending_approval, none⟩ ∧
    alookup p.1.store HITL_PENDING_KEY =
      some ⟨StepStatus.completed, some ⟨B.name, true⟩⟩ ∧
    q.2 = RunOutcome.success ∧
    alookup q.1.results B.name = some apv ∧
    alookup q.1.store B.name = some ⟨StepStatus.completed, some apv⟩ ∧
    alookup q.1.store HITL_PENDING_KEY = some ⟨StepStatus.compensated, none⟩ ∧
    execCalls q.1.trace = [A.name, B.name, C.name] ∧
    compCalls q.1.trace = [] := by
  subst hex
  subst hp
  subst hq
  simp [run, runEntries, runStepSeq, runStepFresh, seqCatch, resume, findSeqStep,
    emit, fireHooks, saveStateT,
    stepIdemKey, stepCompRetries, DEFAULT_COMPENSATION_RETRIES,
    assertJsonSerializable, isJsonSerializable, aset, alookup,
    alookup_ite, aset_ite, alookup_aset_self, alookup_aset_ne,
    hmA, hmB, hmC, hA, hB, hC, hvA, hvC,
    hAB, hAC, hBC, hAh, hBh, hCh,
    Ne.symm hAB, Ne.symm hAC, Ne.symm hBC,
    Ne.symm hAh, Ne.symm hBh, Ne.symm hCh,
    compCalls, compCallP, execCalls, execCallP, loadKeys, loadKeyP,
    filterMap_comp_none]

/-- Witness for C4 at a concrete three-step saga whose middle step pauses
for approval and is then resumed with `w3`. -/
theorem c4_hitl_round_trip_witness :
    (run ⟨[Entry.single (mkOkStep ("A") w1), Entry.single (mkPendStep ("B")),
        Entry.single (mkOkStep ("C") w2)], 1, 1, 1, 1⟩ false [] ⟨[], [], []⟩).2 =
      RunOutcome.pendingApproval ("B") ∧
    compCalls (run ⟨[Entry.single (mkOkStep ("A") w1), Entry.single (mkPendStep ("B")),
        Entry.single (mkOkStep ("C") w2)], 1, 1, 1, 1⟩ false [] ⟨[], [], []⟩).1.trace = [] ∧
    execCalls (run ⟨[Entry.single (mkOkStep ("A") w1), Entry.single (mkPendStep ("B")),
        Entry.single (mkOkStep ("C") w2)], 1, 1, 1, 1⟩ false [] ⟨[], [], []⟩).1.trace =
      [("A"), ("B")] ∧
    loadKeys (run ⟨[Entry.single (mkOkStep ("A") w1), Entry.single (mkPendStep ("B")),
        Entry.single (mkOkStep ("C") w2)], 1, 1, 1, 1⟩ false [] ⟨[], [], []⟩).1.trace =
      [("A"), ("B")] ∧
    alookup (run ⟨[Entry.single (mkOkStep ("A") w1), Entry.single (mkPendStep ("B")),
        Entry.single (mkOkStep ("C") w2)], 1, 1, 1, 1⟩ false [] ⟨[], [], []⟩).1.store
      ("B") = some ⟨StepStatus.pending_approval, none⟩ ∧
    alookup (run ⟨[Entry.single (mkOkStep ("A") w1), Entry.single (mkPendStep ("B")),
        Entry.single (mkOkStep ("C") w2)], 1, 1, 1, 1⟩ false [] ⟨[], [], []⟩).1.store
      HITL_PENDING_KEY = some ⟨StepStatus.completed, some ⟨"B", true⟩⟩ ∧
    (resume ⟨[Entry.single (mkOkStep ("A") w1), Entry.single (mkPendStep ("B")),
        Entry.single (mkOkStep ("C") w2)], 1, 1, 1, 1⟩ w3 []
      (run ⟨[Entry.single (mkOkStep ("A") w1), Entry.single (mkPendStep ("B")),
        Entry.single (mkOkStep ("C") w2)], 1, 1, 1, 1⟩ false [] ⟨[], [], []⟩).1).2 =
      RunOutcome.success ∧
    alookup (resume ⟨[Entry.single (mkOkStep ("A") w1), Entry.single (mkPendStep ("B")),
        Entry.single (mkOkStep ("C") w2)], 1, 1, 1, 1⟩ w3 []
      (run ⟨[Entry.single (mkOkStep ("A") w1), Entry.single (mkPendStep ("B")),
        Entry.single (mkOkStep ("C") w2)], 1, 1, 1, 1⟩ false [] ⟨[], [], []⟩).1).1.results
      ("B") = some w3 ∧
    alookup (resume ⟨[Entry.single (mkOkStep ("A") w1), Entry.single (mkPendStep ("B")),
        Entry.single (mkOkStep ("C") w2)], 1, 1, 1, 1⟩ w3 []
      (run ⟨[Entry.single (mkOkStep ("A") w1), Entry.single (mkPendStep ("B")),
        Entry.single (mkOkStep ("C") w2)], 1, 1, 1, 1⟩ false [] ⟨[], [], []⟩).1).1.store
      ("B") = some ⟨StepStatus.completed, some w3⟩ ∧
    alookup (resume ⟨[Entry.single (mkOkStep ("A") w1), Entry.single (mkPendStep ("B")),
        Entry.single (mkOkStep ("C") w2)], 1, 1, 1, 1⟩ w3 []
      (run ⟨[Entry.single (mkOkStep ("A") w1), Entry.single (mkPendStep ("B")),
        Entry.single (mkOkStep ("C") w2)], 1, 1, 1, 1⟩ false [] ⟨[], [], []⟩).1).1.store
      HITL_PENDING_KEY = some ⟨StepStatus.compensated, none⟩ ∧
    execCalls (resume ⟨[Entry.single (mkOkStep ("A") w1), Entry.single (mkPendStep ("B")),
        Entry.single (mkOkStep ("C") w2)], 1, 1, 1, 1⟩ w3 []
      (run ⟨[Entry.single (mkOkStep ("A") w1), Entry.single (mkPendStep ("B")),
        Entry.single (mkOkStep ("C") w2)], 1, 1, 1, 1⟩ false [] ⟨[], [], []⟩).1).1.trace =
      [("A"), ("B"), ("C")] ∧
    compCalls (resume ⟨[Entry.single (mkOkStep ("A") w1), Entry.single (mkPendStep ("B")),
        Entry.single (mkOkStep ("C") w2)], 1, 1, 1, 1⟩ w3 []
      (run ⟨[Entry.single (mkOkStep ("A") w1), Entry.single (mkPendStep ("B")),
        Entry.single (mkOkStep ("C") w2)], 1, 1, 1, 1⟩ false [] ⟨[], [], []⟩).1).1.trace = [] :=
  c4_hitl_round_trip (mkOkStep ("A") w1) (mkPendStep ("B")) (mkOkStep ("C") w2)
    w1 w2 w3 [] 1 1 1 1 [] []
    ⟨[Entry.single (mkOkStep ("A") w1), Entry.single (mkPendStep ("B")),
      Entry.single (mkOkStep ("C") w2)], 1, 1, 1, 1⟩
    (run ⟨[Entry.single (mkOkStep ("A") w1), Entry.single (mkPendStep ("B")),
      Entry.single (mkOkStep ("C") w2)], 1, 1, 1, 1⟩ false [] ⟨[], [], []⟩)
    (resume ⟨[Entry.single (mkOkStep ("A") w1), Entry.single (mkPendStep ("B")),
        Entry.single (mkOkStep ("C") w2)], 1, 1, 1, 1⟩ w3 []
      (run ⟨[Entry.single (mkOkStep ("A") w1), Entry.single (mkPendStep ("B")),
        Entry.single (mkOkStep ("C") w2)], 1, 1, 1, 1⟩ false [] ⟨[], [], []⟩).1)
    rfl rfl rfl rfl rfl rfl (by decide) (by decide) (by decide) (by decide)
    (by decide) (by decide) (fun _ => rfl) rfl (fun _ => rfl) (fun _ => rfl) rfl

-- ---------------------------------------------------------------------------
-- C10
-- ---------------------------------------------------------------------------

/-- The compensation retry loop never touches the context results map. -/
theorem compensateLoop_results (ex : Executor) (rec : CompletedRec) :
    ∀ fuel attempt st, (compensateLoop ex rec attempt fuel st).1.results = st.results := by
  intro fuel
  induction fuel with
  | zero =>
    intro attempt st
    rw [compensateLoop]
    cases rec.step.compensate
        (emit (if attempt > 0 then
          emit st (Event.sleep (100 * 2 ^ (attempt - 1))) else st)
          (Event.compCall rec.step.name attempt)).results rec.result attempt <;>
      simp [emit, fireHooks, saveStateT, results_ite]
  | succ f ih =>
    intro attempt st
    rw [compensateLoop]
    cases rec.step.compensate
        (emit (if attempt > 0 then
          emit st (Event.sleep (100 * 2 ^ (attempt - 1))) else st)
          (Event.compCall rec.step.name attempt)).results rec.result attempt
    · simp [emit, fireHooks, saveStateT, results_ite]
    · rw [ih]
      simp [emit, fireHooks, saveStateT, results_ite]

/-- `_rollback`'s backward walk never touches the context results map. -/
theorem rollbackAux_results (ex : Executor) :
    ∀ recs st, (rollbackAux ex recs st).1.results = st.results := by
  intro recs
  induction recs with
  | nil => intro st; rfl
  | cons rec rest ih =>
    intro st
    simp only [rollbackAux]
    split
    · rw [ih]; simp [emit]
    · rcases hcl : compensateLoop ex rec 0 (stepCompRetries rec.step)
          (emit st (Event.loadState (rec.idemKey ++ ":compensate")
            (alookup st.store (rec.idemKey ++ ":compensate")))) with ⟨st2, err⟩
      have h2 : st2.results = st.results := by
        have := compensateLoop_results ex rec (stepCompRetries rec.step) 0
          (emit st (Event.loadState (rec.idemKey ++ ":compensate")
            (alookup st.store (rec.idemKey ++ ":compensate"))))
        rw [hcl] at this
        simpa [emit] using this
      cases err with
      | none => simp only [hcl]; rw [ih]; exact h2
      | some e => simp only [hcl]; exact h2

/-- Claim C10: rollback never mutates the run context — `_rollback`
removes nothing from and writes nothing to `context.results` (first
conjunct, for every executor, completed list and state); consequently,
after a failed run that compensated its completed steps, the caller's
context still contains the result entry of each step that had completed
before the failure (second conjunct: the concrete [A then failing B]
scenario, where A was compensated yet `results[A]` survives). -/
theorem c10_rollback_frame
    (A B : SagaStep) (vA : Value) (e : SagaError) (r0 : Results)
    (nb na ne nc : Nat) (scheds : List (List Nat))
    (hmA : A.metadata = none) (hmB : B.metadata = none)
    (hAB : A.name ≠ B.name)
    (hA : ∀ ctx, A.execute ctx = ExecOutcome.ok vA) (hvA : vA.serializable = true)
    (hB : ∀ ctx, B.execute ctx = ExecOutcome.error e)
    (hne : e ≠ SagaError.pendingApproval)
    (hAc : ∀ ctx r n, A.compensate ctx r n = none) :
    (∀ (ex : Executor) (completed : List CompletedRec) (st : EngineState),
      (rollback ex completed st).1.results = st.results) ∧
    (run ⟨[Entry.single A, Entry.single B], nb, na, ne, nc⟩ false scheds
        ⟨[], r0, []⟩).2 = RunOutcome.failed e ∧
    compCalls (run ⟨[Entry.single A, Entry.single B], nb, na, ne, nc⟩ false scheds
        ⟨[], r0, []⟩).1.trace = [(A.name, 0)] ∧
    alookup (run ⟨[Entry.single A, Entry.single B], nb, na, ne, nc⟩ false scheds
        ⟨[], r0, []⟩).1.results A.name = some vA := by
  refine ⟨fun ex completed st => rollbackAux_results ex completed.reverse st, ?_⟩
  simp [run, runEntries, runStepSeq, runStepFresh, seqCatch, rollback, rollbackAux,
    compensateLoop, shouldSkipComp_ite, shouldSkipComp_none, shouldSkipComp_completed,
    alookup_ite, aset_ite, emit, fireHooks, saveStateT,
    stepIdemKey, stepCompRetries, DEFAULT_COMPENSATION_RETRIES,
    assertJsonSerializable, isJsonSerializable, aset, alookup,
    hmA, hmB, hA, hB, hvA, hne, hAc, hAB, Ne.symm hAB,
    ne_compKey_self A.name, alookup_aset_self,
    compCalls, compCallP, filterMap_comp_none]

/-- Witness for C10 at a concrete failing saga. -/
theorem c10_rollback_frame_witness :
    (rollback ⟨[], 0, 0, 0, 0⟩ [] ⟨[], [(("A"), w1)], []⟩).1.results = [(("A"), w1)] ∧
    (run ⟨[Entry.single (mkOkStep ("A") w1), Entry.single (mkFailStep ("B") boom)],
        1, 1, 1, 1⟩ false [] ⟨[], [], []⟩).2 = RunOutcome.failed boom ∧
    alookup (run ⟨[Entry.single (mkOkStep ("A") w1), Entry.single (mkFailStep ("B") boom)],
        1, 1, 1, 1⟩ false [] ⟨[], [], []⟩).1.results ("A") = some w1 := by
  have h := c10_rollback_frame (mkOkStep ("A") w1) (mkFailStep ("B") boom) w1 boom
    [] 1 1 1 1 [] rfl rfl (by decide) (fun _ => rfl) rfl (fun _ => rfl) (by decide)
    (fun _ _ _ => rfl)
  exact ⟨h.1 ⟨[], 0, 0, 0, 0⟩ [] ⟨[], [(("A"), w1)], []⟩, h.2.1, h.2.2.2⟩

-- ---------------------------------------------------------------------------
-- C8
-- ---------------------------------------------------------------------------
theorem writesOkFrom_append (Δ1 Δ2 : List Event) :
    ∀ ev, writesOkFrom ev (Δ1 ++ Δ2) =
      (writesOkFrom ev Δ1 && writesOkFrom (evAfter ev Δ1) Δ2) := by
  induction Δ1 with
  | nil => intro ev; simp [writesOkFrom, evAfter]
  | cons e rest ih =>
    intro ev
    simp [writesOkFrom, evAfter, ih, Bool.and_assoc]

theorem segOk_append {Δ1 Δ2 : List Event} (h1 : SegOk Δ1) (h2 : SegOk Δ2) :
    SegOk (Δ1 ++ Δ2) := by
  intro ev
  rw [writesOkFrom_append]
  simp [h1 ev, h2 (evAfter ev Δ1)]

theorem segOk_noWrites : ∀ Δ : List Event, ctxWrites Δ = [] → SegOk Δ := by
  intro Δ
  induction Δ with
  | nil => intro _ ev; rfl
  | cons e rest ih =>
    intro h ev
    cases e <;>
      simp only [ctxWrites, ctxWriteP, List.filterMap_cons] at h <;>
      simp only [writesOkFrom, Bool.true_and, Bool.and_eq_true] <;>
      first
        | exact ih h _
        | exact absurd h (by simp)



theorem writesOk_extend {tr Δ : List Event} {ev : List (String × Value)}
    (h : writesOkFrom ev tr = true) (hseg : SegOk Δ) :
    writesOkFrom ev (tr ++ Δ) = true := by
  rw [writesOkFrom_append]
  simp [h, hseg _]

theorem writesOkFrom_map_neutral {α : Type} (mk : α → Event)
    (hW : ∀ a, (match mk a with | Event.ctxWrite _ _ _ => false | _ => true) = true)
    (hE : ∀ ev a, evPush ev (mk a) = ev) :
    ∀ (l : List α) (ev : List (String × Value)) (rest : List Event),
    writesOkFrom ev (l.map mk ++ rest) = writesOkFrom ev rest := by
  intro l
  induction l with
  | nil => intro ev rest; simp
  | cons a l ih =>
    intro ev rest
    have hw := hW a
    have he := hE ev a
    simp only [List.map_cons, List.cons_append, writesOkFrom, he, ih]
    cases hmk : mk a <;> simp_all

theorem writesOkFrom_hookBefore (s : String) (l : List Nat)
    (ev : List (String × Value)) (rest : List Event) :
    writesOkFrom ev (l.map (Event.hookBefore s) ++ rest) = writesOkFrom ev rest :=
  writesOkFrom_map_neutral (Event.hookBefore s) (fun _ => rfl) (fun _ _ => rfl) l ev rest

theorem writesOkFrom_hookAfter (s : String) (l : List Nat)
    (ev : List (String × Value)) (rest : List Event) :
    writesOkFrom ev (l.map (Event.hookAfter s) ++ rest) = writesOkFrom ev rest :=
  writesOkFrom_map_neutral (Event.hookAfter s) (fun _ => rfl) (fun _ _ => rfl) l ev rest

theorem writesOkFrom_hookError (s : String) (l : List Nat)
    (ev : List (String × Value)) (rest : List Event) :
    writesOkFrom ev (l.map (Event.hookError s) ++ rest) = writesOkFrom ev rest :=
  writesOkFrom_map_neutral (Event.hookError s) (fun _ => rfl) (fun _ _ => rfl) l ev rest

theorem writesOkFrom_hookComp (s : String) (l : List Nat)
    (ev : List (String × Value)) (rest : List Event) :
    writesOkFrom ev (l.map (Event.hookComp s) ++ rest) = writesOkFrom ev rest :=
  writesOkFrom_map_neutral (Event.hookComp s) (fun _ => rfl) (fun _ _ => rfl) l ev rest

theorem writesOkFrom_map_neutral_nil {α : Type} (mk : α → Event)
    (hW : ∀ a, (match mk a with | Event.ctxWrite _ _ _ => false | _ => true) = true)
    (hE : ∀ ev a, evPush ev (mk a) = ev)
    (l : List α) (ev : List (String × Value)) :
    writesOkFrom ev (l.map mk) = true := by
  simpa using writesOkFrom_map_neutral mk hW hE l ev []

theorem writesOkFrom_hookBefore_nil (s : String) (l : List Nat)
    (ev : List (String × Value)) : writesOkFrom ev (l.map (Event.hookBefore s)) = true :=
  writesOkFrom_map_neutral_nil (Event.hookBefore s) (fun _ => rfl) (fun _ _ => rfl) l ev

theorem writesOkFrom_hookAfter_nil (s : String) (l : List Nat)
    (ev : List (String × Value)) : writesOkFrom ev (l.map (Event.hookAfter s)) = true :=
  writesOkFrom_map_neutral_nil (Event.hookAfter s) (fun _ => rfl) (fun _ _ => rfl) l ev

theorem writesOkFrom_hookError_nil (s : String) (l : List Nat)
    (ev : List (String × Value)) : writesOkFrom ev (l.map (Event.hookError s)) = true :=
  writesOkFrom_map_neutral_nil (Event.hookError s) (fun _ => rfl) (fun _ _ => rfl) l ev

theorem writesOkFrom_hookComp_nil (s : String) (l : List Nat)
    (ev : List (String × Value)) : writesOkFrom ev (l.map (Event.hookComp s)) = true :=
  writesOkFrom_map_neutral_nil (Event.hookComp s) (fun _ => rfl) (fun _ _ => rfl) l ev

theorem evAfter_map_neutral {α : Type} (mk : α → Event)
    (hE : ∀ ev a, evPush ev (mk a) = ev) :
    ∀ (l : List α) (ev : List (String × Value)), evAfter ev (l.map mk) = ev := by
  intro l
  induction l with
  | nil => intro ev; rfl
  | cons a l ih => intro ev; simp [evAfter, hE, ih]

theorem evAfter_hookBefore (s : String) (l : List Nat) (ev : List (String × Value)) :
    evAfter ev (l.map (Event.hookBefore s)) = ev :=
  evAfter_map_neutral (Event.hookBefore s) (fun _ _ => rfl) l ev

theorem evAfter_hookAfter (s : String) (l : List Nat) (ev : List (String × Value)) :
    evAfter ev (l.map (Event.hookAfter s)) = ev :=
  evAfter_map_neutral (Event.hookAfter s) (fun _ _ => rfl) l ev

theorem evAfter_hookError (s : String) (l : List Nat) (ev : List (String × Value)) :
    evAfter ev (l.map (Event.hookError s)) = ev :=
  evAfter_map_neutral (Event.hookError s) (fun _ _ => rfl) l ev

theorem evAfter_hookComp (s : String) (l : List Nat) (ev : List (String × Value)) :
    evAfter ev (l.map (Event.hookComp s)) = ev :=
  evAfter_map_neutral (Event.hookComp s) (fun _ _ => rfl) l ev

theorem writesOkFrom_append_load {ev : List (String × Value)} {tr : List Event}
    (k : String) (found : Option StepState) (h : writesOkFrom ev tr = true) :
    writesOkFrom ev (tr ++ [Event.loadState k found]) = true := by
  rw [writesOkFrom_append]
  simp [h, writesOkFrom]

/-- The write-justification invariant survives a fresh sequential-step
execution: the only context write is justified by the checkpoint saved
just before it, and the failure paths write nothing. -/
theorem runStepFresh_pthru (ex : Executor) (step : SagaStep) (idemKey : String)
    (st : EngineState) (ev : List (String × Value))
    (h : writesOkFrom ev st.trace = true) :
    writesOkFrom ev ((runStepFresh ex step idemKey st).1).trace = true := by
  obtain ⟨sto, res, tr⟩ := st
  rcases hex : step.execute res with v | e
  · rcases hser : v.serializable with _ | _
    · simp only [runStepFresh, emit, fireHooks, saveStateT, hex,
        assertJsonSerializable, isJsonSerializable, hser, Bool.false_eq_true,
        if_false, seqCatch, List.append_assoc]
      rw [if_neg (by simp)]
      apply writesOk_extend h
      intro ev'
      simp [writesOkFrom, writesOkFrom_append, writesOkFrom_hookBefore,
        writesOkFrom_hookError, writesOkFrom_hookBefore_nil,
        writesOkFrom_hookError_nil, evAfter_hookBefore, evAfter_hookError,
        evAfter, evPush]
    · simp only [runStepFresh, emit, fireHooks, saveStateT, hex,
        assertJsonSerializable, isJsonSerializable, hser, if_true,
        List.append_assoc]
      apply writesOk_extend h
      intro ev'
      simp [writesOkFrom, writesOkFrom_append, writesOkFrom_hookBefore,
        writesOkFrom_hookAfter, writesOkFrom_hookBefore_nil,
        writesOkFrom_hookAfter_nil, evAfter_hookBefore, evAfter_hookAfter,
        evAfter, evPush]
  · by_cases hpa : e = SagaError.pendingApproval
    · subst hpa
      simp only [runStepFresh, emit, fireHooks, saveStateT, hex, seqCatch,
        if_pos rfl, List.append_assoc]
      apply writesOk_extend h
      intro ev'
      simp [writesOkFrom, writesOkFrom_append, writesOkFrom_hookBefore,
        writesOkFrom_hookError, writesOkFrom_hookBefore_nil,
        writesOkFrom_hookError_nil, evAfter_hookBefore, evAfter_hookError,
        evAfter, evPush]
    · simp only [runStepFresh, emit, fireHooks, saveStateT, hex, seqCatch,
        if_neg hpa, List.append_assoc]
      apply writesOk_extend h
      intro ev'
      simp [writesOkFrom, writesOkFrom_append, writesOkFrom_hookBefore,
        writesOkFrom_hookError, writesOkFrom_hookBefore_nil,
        writesOkFrom_hookError_nil, evAfter_hookBefore, evAfter_hookError,
        evAfter, evPush]

/-- The write-justification invariant survives one sequential step: in the
replay path the evidence is the completed checkpoint just loaded, in the
fresh path it is the checkpoint just saved, and the failure paths write
nothing. -/
theorem runStepSeq_pthru (ex : Executor) (step : SagaStep) (st : EngineState)
    (ev : List (String × Value)) (h : writesOkFrom ev st.trace = true) :
    writesOkFrom ev ((runStepSeq ex step st).1).trace = true := by
  obtain ⟨sto, res, tr⟩ := st
  rcases hlk : alookup sto (stepIdemKey step) with _ | s
  · simp only [runStepSeq, hlk]
    exact runStepFresh_pthru ex step _ _ ev
      (writesOkFrom_append_load _ _ h)
  · rcases s with ⟨status, r⟩
    cases status with
    | completed =>
      rw [seq_replay ex step sto res tr r hlk]
      simp only [List.append_assoc]
      apply writesOk_extend h
      intro ev'
      simp [writesOkFrom, evPush]
    | pending_approval =>
      rw [seq_pending_existing ex step sto res tr r hlk]
      simp only [List.append_assoc]
      apply writesOk_extend h
      intro ev'
      simp [writesOkFrom, evPush]
    | compensated =>
      simp only [runStepSeq, hlk]
      exact runStepFresh_pthru ex step _ _ ev
        (writesOkFrom_append_load _ _ h)



/-- The write-justification invariant survives a fresh group-member
execution. -/
theorem groupMemberFresh_pthru (ex : Executor) (step : SagaStep) (idemKey : String)
    (st : EngineState) (ev : List (String × Value))
    (h : writesOkFrom ev st.trace = true) :
    writesOkFrom ev ((groupMemberFresh ex step idemKey st).1).trace = true := by
  obtain ⟨sto, res, tr⟩ := st
  rcases hex : step.execute res with v | e
  · rcases hser : v.serializable with _ | _
    · simp only [groupMemberFresh, emit, fireHooks, saveStateT, hex,
        assertJsonSerializable, isJsonSerializable, hser, Bool.false_eq_true,
        if_false, List.append_assoc]
      apply writesOk_extend h
      intro ev'
      simp [writesOkFrom, writesOkFrom_append, writesOkFrom_hookBefore,
        writesOkFrom_hookBefore_nil, evAfter_hookBefore, evAfter, evPush]
    · simp only [groupMemberFresh, emit, fireHooks, saveStateT, hex,
        assertJsonSerializable, isJsonSerializable, hser, if_true,
        List.append_assoc]
      apply writesOk_extend h
      intro ev'
      simp [writesOkFrom, writesOkFrom_append, writesOkFrom_hookBefore,
        writesOkFrom_hookAfter, writesOkFrom_hookBefore_nil,
        writesOkFrom_hookAfter_nil, evAfter_hookBefore, evAfter_hookAfter,
        evAfter, evPush]
  · simp only [groupMemberFresh, emit, fireHooks, hex, List.append_assoc]
    apply writesOk_extend h
    intro ev'
    simp [writesOkFrom, writesOkFrom_append, writesOkFrom_hookBefore,
      writesOkFrom_hookBefore_nil, evAfter_hookBefore, evAfter, evPush]

/-- The write-justification invariant survives one group-member body. -/
theorem runGroupMember_pthru (ex : Executor) (step : SagaStep)
    (st : EngineState) (ev : List (String × Value))
    (h : writesOkFrom ev st.trace = true) :
    writesOkFrom ev ((runGroupMember ex step st).1).trace = true := by
  obtain ⟨sto, res, tr⟩ := st
  rcases hlk : alookup sto (stepIdemKey step) with _ | s
  · simp only [runGroupMember, hlk]
    exact groupMemberFresh_pthru ex step _ _ ev (writesOkFrom_append_load _ _ h)
  · rcases s with ⟨status, r⟩
    cases status with
    | completed =>
      simp only [runGroupMember, hlk, emit, List.append_assoc]
      apply writesOk_extend h
      intro ev'
      simp [writesOkFrom, evPush]
    | pending_approval =>
      simp only [runGroupMember, hlk, emit, List.append_assoc]
      apply writesOk_extend h
      intro ev'
      simp [writesOkFrom, evPush]
    | compensated =>
      simp only [runGroupMember, hlk]
      exact groupMemberFresh_pthru ex step _ _ ev (writesOkFrom_append_load _ _ h)

/-- The compensation retry loop emits no context write, so the invariant
survives it. -/
theorem compensateLoop_pthru (ex : Executor) (rec : CompletedRec) :
    ∀ (fuel attempt : Nat) (st : EngineState) (ev : List (String × Value)),
    writesOkFrom ev st.trace = true →
    writesOkFrom ev ((compensateLoop ex rec attempt fuel st).1).trace = true := by
  intro fuel
  induction fuel with
  | zero =>
    intro attempt st ev h
    rw [compensateLoop]
    cases rec.step.compensate
        (emit (if attempt > 0 then
          emit st (Event.sleep (100 * 2 ^ (attempt - 1))) else st)
          (Event.compCall rec.step.name attempt)).results rec.result attempt <;>
      · simp only [emit, fireHooks, saveStateT, store_ite, results_ite, trace_ite,
          trace_if_sleep, List.append_assoc]
        apply writesOk_extend h
        intro ev'
        simp [writesOkFrom, writesOkFrom_append, writesOkFrom_hookComp,
          writesOkFrom_hookComp_nil, evAfter_hookComp, evAfter, evPush,
          apply_ite (writesOkFrom ev'), ite_self]
  | succ f ih =>
    intro attempt st ev h
    rw [compensateLoop]
    cases rec.step.compensate
        (emit (if attempt > 0 then
          emit st (Event.sleep (100 * 2 ^ (attempt - 1))) else st)
          (Event.compCall rec.step.name attempt)).results rec.result attempt
    · simp only [emit, fireHooks, saveStateT, store_ite, results_ite, trace_ite,
        trace_if_sleep, List.append_assoc]
      apply writesOk_extend h
      intro ev'
      simp [writesOkFrom, writesOkFrom_append, writesOkFrom_hookComp,
        writesOkFrom_hookComp_nil, evAfter_hookComp, evAfter, evPush,
        apply_ite (writesOkFrom ev'), ite_self]
    · apply ih
      simp only [emit, trace_ite, trace_if_sleep, List.append_assoc]
      apply writesOk_extend h
      intro ev'
      simp [writesOkFrom, writesOkFrom_append, evAfter, evPush,
        apply_ite (writesOkFrom ev'), ite_self]



/-- The rollback walk emits no context write, so the invariant survives it. -/
theorem rollbackAux_pthru (ex : Executor) :
    ∀ (recs : List CompletedRec) (st : EngineState) (ev : List (String × Value)),
    writesOkFrom ev st.trace = true →
    writesOkFrom ev ((rollbackAux ex recs st).1).trace = true := by
  intro recs
  induction recs with
  | nil => intro st ev h; exact h
  | cons rec rest ih =>
    intro st ev h
    simp only [rollbackAux]
    split
    · exact ih _ ev (writesOkFrom_append_load _ _ h)
    · rcases hcl : compensateLoop ex rec 0 (stepCompRetries rec.step)
          (emit st (Event.loadState (rec.idemKey ++ ":compensate")
            (alookup st.store (rec.idemKey ++ ":compensate")))) with ⟨st2, err⟩
      have h2 : writesOkFrom ev st2.trace = true := by
        have := compensateLoop_pthru ex rec (stepCompRetries rec.step) 0
          (emit st (Event.loadState (rec.idemKey ++ ":compensate")
            (alookup st.store (rec.idemKey ++ ":compensate")))) ev
          (by simpa [emit] using writesOkFrom_append_load _ _ h)
        rw [hcl] at this
        exact this
      cases err with
      | none => simp only [hcl]; exact ih _ ev h2
      | some e => simp only [hcl]; exact h2

/-- The invariant survives running all group members in schedule order. -/
theorem runGroupMembers_pthru (ex : Executor) (steps : List SagaStep) :
    ∀ (sched : List Nat) (st : EngineState) (ev : List (String × Value)),
    writesOkFrom ev st.trace = true →
    writesOkFrom ev ((runGroupMembers ex steps sched st).1).trace = true := by
  intro sched
  induction sched with
  | nil => intro st ev h; exact h
  | cons i rest ih =>
    intro st ev h
    simp only [runGroupMembers]
    cases steps[i]? with
    | none => exact ih st ev h
    | some step => exact ih _ ev (runGroupMember_pthru ex step st ev h)

/-- The settle loop only fires error hooks, so the invariant survives it. -/
theorem settleLoop_pthru (ex : Executor)
    (assignments : List (Nat × Except SagaError CompletedRec)) :
    ∀ (l : List (Nat × SagaStep)) (st : EngineState) (completed : List CompletedRec)
      (firstErr : Option SagaError) (ev : List (String × Value)),
    writesOkFrom ev st.trace = true →
    writesOkFrom ev ((settleLoop ex assignments l st completed firstErr).1).trace = true := by
  intro l
  induction l with
  | nil => intro st completed firstErr ev h; exact h
  | cons p rest ih =>
    intro st completed firstErr ev h
    rcases p with ⟨i, step⟩
    simp only [settleLoop]
    cases settledAt assignments i with
    | ok rec => exact ih _ _ _ ev h
    | error e =>
      have h2 : writesOkFrom ev (fireHooks st ex.nError (Event.hookError step.name)).trace = true := by
        simp only [fireHooks]
        rw [writesOkFrom_append]
        simp [h, writesOkFrom_hookError_nil]
      cases firstErr with
      | some e0 => exact ih _ _ _ ev h2
      | none => exact ih _ _ _ ev h2

/-- The invariant survives the whole entry loop of `run`. -/
theorem runEntries_pthru (ex : Executor) :
    ∀ (entries : List Entry) (scheds : List (List Nat))
      (completed : List CompletedRec) (st : EngineState) (ev : List (String × Value)),
    writesOkFrom ev st.trace = true →
    writesOkFrom ev ((runEntries ex entries scheds completed st).1).trace = true := by
  intro entries
  induction entries with
  | nil => intro scheds completed st ev h; exact h
  | cons entry rest ih =>
    intro scheds completed st ev h
    cases entry with
    | single step =>
      simp only [runEntries]
      rcases hs : runStepSeq ex step st with ⟨st2, r⟩
      have h2 : writesOkFrom ev st2.trace = true := by
        have := runStepSeq_pthru ex step st ev h
        rw [hs] at this
        exact this
      cases r with
      | ok rec => exact ih _ _ _ ev h2
      | pending => exact h2
      | errored e =>
        rcases hrb : rollback ex completed st2 with ⟨st3, rerr⟩
        have h3 : writesOkFrom ev st3.trace = true := by
          have := rollbackAux_pthru ex completed.reverse st2 ev h2
          rw [show rollbackAux ex completed.reverse st2 = (st3, rerr) from hrb] at this
          exact this
        simp only [hrb]
        cases rerr <;> exact h3
    | group gsteps =>
      simp only [runEntries, executeParallelGroup]
      rcases hgm : runGroupMembers ex gsteps
          (normalizeSched gsteps.length (scheds.headD [])) st with ⟨st1, assignments⟩
      have h1 : writesOkFrom ev st1.trace = true := by
        have := runGroupMembers_pthru ex gsteps
          (normalizeSched gsteps.length (scheds.headD [])) st ev h
        rw [hgm] at this
        exact this
      rcases hsl : settleLoop ex assignments gsteps.enum st1 completed none
        with ⟨st2, completed2, ferr⟩
      have h2 : writesOkFrom ev st2.trace = true := by
        have := settleLoop_pthru ex assignments gsteps.enum st1 completed none ev h1
        rw [hsl] at this
        exact this
      cases ferr with
      | none => exact ih _ _ _ ev h2
      | some e =>
        rcases hrb : rollback ex completed2 st2 with ⟨st3, rerr⟩
        have h3 : writesOkFrom ev st3.trace = true := by
          have := rollbackAux_pthru ex completed2.reverse st2 ev h2
          rw [show rollbackAux ex completed2.reverse st2 = (st3, rerr) from hrb] at this
          exact this
        simp only [hrb]
        cases rerr <;> exact h3



/-- The no-write computation for an error/pause trace extension: load,
hooks and execute-call events contribute no context write. -/
theorem ctxWrites_noWrite_ext (tr : List Event) (rest : List Event)
    (h : ctxWrites rest = []) : ctxWrites (tr ++ rest) = ctxWrites tr := by
  simp [ctxWrites_append, h]

/-- A fresh execution that ends in an error or a pause adds no context
write to the trace. -/
theorem runStepFresh_no_write (ex : Executor) (step : SagaStep) (idemKey : String)
    (st : EngineState) :
    (∀ st2 e, runStepFresh ex step idemKey st = (st2, SeqResult.errored e) →
      ctxWrites st2.trace = ctxWrites st.trace) ∧
    (∀ st2, runStepFresh ex step idemKey st = (st2, SeqResult.pending) →
      ctxWrites st2.trace = ctxWrites st.trace) := by
  obtain ⟨sto, res, tr⟩ := st
  rcases hex : step.execute res with v | e2
  · rcases hser : v.serializable with _ | _
    · constructor
      · intro st2 e hr
        simp only [runStepFresh, emit, fireHooks, saveStateT, hex, seqCatch,
          assertJsonSerializable, isJsonSerializable, hser, Bool.false_eq_true,
          if_false,
          if_neg (show ¬SagaError.serialization step.name = SagaError.pendingApproval
            by simp)] at hr
        injection hr with h1 h2
        subst h1
        simp [ctxWrites_append, ctxWrites, ctxWriteP, List.filterMap_cons,
          List.filterMap_map, filterMap_comp_none]
      · intro st2 hr
        simp only [runStepFresh, emit, fireHooks, saveStateT, hex, seqCatch,
          assertJsonSerializable, isJsonSerializable, hser, Bool.false_eq_true,
          if_false,
          if_neg (show ¬SagaError.serialization step.name = SagaError.pendingApproval
            by simp)] at hr
        injection hr with h1 h2
        simp at h2
    · constructor
      · intro st2 e hr
        simp only [runStepFresh, emit, fireHooks, saveStateT, hex,
          assertJsonSerializable, isJsonSerializable, hser, if_true] at hr
        injection hr with h1 h2
        simp at h2
      · intro st2 hr
        simp only [runStepFresh, emit, fireHooks, saveStateT, hex,
          assertJsonSerializable, isJsonSerializable, hser, if_true] at hr
        injection hr with h1 h2
        simp at h2
  · by_cases hpa : e2 = SagaError.pendingApproval
    · subst hpa
      constructor
      · intro st2 e hr
        simp only [runStepFresh, emit, fireHooks, saveStateT, hex, seqCatch,
          if_pos rfl] at hr
        injection hr with h1 h2
        simp at h2
      · intro st2 hr
        simp only [runStepFresh, emit, fireHooks, saveStateT, hex, seqCatch,
          if_pos rfl] at hr
        injection hr with h1 h2
        subst h1
        simp [ctxWrites_append, ctxWrites, ctxWriteP, List.filterMap_cons,
          List.filterMap_map, filterMap_comp_none]
    · constructor
      · intro st2 e hr
        simp only [runStepFresh, emit, fireHooks, saveStateT, hex, seqCatch,
          if_neg hpa] at hr
        injection hr with h1 h2
        subst h1
        simp [ctxWrites_append, ctxWrites, ctxWriteP, List.filterMap_cons,
          List.filterMap_map, filterMap_comp_none]
      · intro st2 hr
        simp only [runStepFresh, emit, fireHooks, saveStateT, hex, seqCatch,
          if_neg hpa] at hr
        injection hr with h1 h2
        simp at h2

/-- A sequential step that fails or pauses adds no context write: the
claim's "a step that fails or pauses for approval never has a result
written under its name". -/
theorem runStepSeq_no_write (ex : Executor) (step : SagaStep) (st : EngineState) :
    (∀ st2 e, runStepSeq ex step st = (st2, SeqResult.errored e) →
      ctxWrites st2.trace = ctxWrites st.trace) ∧
    (∀ st2, runStepSeq ex step st = (st2, SeqResult.pending) →
      ctxWrites st2.trace = ctxWrites st.trace) := by
  obtain ⟨sto, res, tr⟩ := st
  rcases hlk : alookup sto (stepIdemKey step) with _ | ⟨status, r⟩
  · have hfresh := runStepFresh_no_write ex step (stepIdemKey step)
      (emit ⟨sto, res, tr⟩ (Event.loadState (stepIdemKey step) none))
    constructor
    · intro st2 e hr
      simp only [runStepSeq, hlk] at hr
      have h2 := hfresh.1 st2 e hr
      simpa [emit, ctxWrites_append, ctxWrites, ctxWriteP, List.filterMap_cons]
        using h2
    · intro st2 hr
      simp only [runStepSeq, hlk] at hr
      have h2 := hfresh.2 st2 hr
      simpa [emit, ctxWrites_append, ctxWrites, ctxWriteP, List.filterMap_cons]
        using h2
  · cases status with
    | completed =>
      constructor
      · intro st2 e hr
        rw [seq_replay ex step sto res tr r hlk] at hr
        injection hr with h1 h2
        simp at h2
      · intro st2 hr
        rw [seq_replay ex step sto res tr r hlk] at hr
        injection hr with h1 h2
        simp at h2
    | pending_approval =>
      constructor
      · intro st2 e hr
        rw [seq_pending_existing ex step sto res tr r hlk] at hr
        injection hr with h1 h2
        simp at h2
      · intro st2 hr
        rw [seq_pending_existing ex step sto res tr r hlk] at hr
        injection hr with h1 h2
        subst h1
        simp [ctxWrites_append, ctxWrites, ctxWriteP, List.filterMap_cons]
    | compensated =>
      have hfresh := runStepFresh_no_write ex step (stepIdemKey step)
        (emit ⟨sto, res, tr⟩ (Event.loadState (stepIdemKey step)
          (some ⟨StepStatus.compensated, r⟩)))
      constructor
      · intro st2 e hr
        simp only [runStepSeq, hlk] at hr
        have h2 := hfresh.1 st2 e hr
        simpa [emit, ctxWrites_append, ctxWrites, ctxWriteP, List.filterMap_cons]
          using h2
      · intro st2 hr
        simp only [runStepSeq, hlk] at hr
        have h2 := hfresh.2 st2 hr
        simpa [emit, ctxWrites_append, ctxWrites, ctxWriteP, List.filterMap_cons]
          using h2

/-- A fresh group-member execution whose settlement is rejected adds no
context write. -/
theorem groupMemberFresh_no_write (ex : Executor) (step : SagaStep)
    (idemKey : String) (st : EngineState) :
    ∀ st2 e, groupMemberFresh ex step idemKey st = (st2, Except.error e) →
      ctxWrites st2.trace = ctxWrites st.trace := by
  obtain ⟨sto, res, tr⟩ := st
  intro st2 e hr
  rcases hex : step.execute res with v | e2
  · rcases hser : v.serializable with _ | _
    · simp only [groupMemberFresh, emit, fireHooks, saveStateT, hex,
        assertJsonSerializable, isJsonSerializable, hser, Bool.false_eq_true,
        if_false] at hr
      injection hr with h1 h2
      subst h1
      simp [ctxWrites_append, ctxWrites, ctxWriteP, List.filterMap_cons,
        List.filterMap_map, filterMap_comp_none]
    · simp only [groupMemberFresh, emit, fireHooks, saveStateT, hex,
        assertJsonSerializable, isJsonSerializable, hser, if_true] at hr
      injection hr with h1 h2
      simp at h2
  · simp only [groupMemberFresh, emit, fireHooks, hex] at hr
    injection hr with h1 h2
    subst h1
    simp [ctxWrites_append, ctxWrites, ctxWriteP, List.filterMap_cons,
      List.filterMap_map, filterMap_comp_none]

/-- A group member whose settlement is rejected adds no context write. -/
theorem runGroupMember_no_write (ex : Executor) (step : SagaStep) (st : EngineState) :
    ∀ st2 e, runGroupMember ex step st = (st2, Except.error e) →
      ctxWrites st2.trace = ctxWrites st.trace := by
  obtain ⟨sto, res, tr⟩ := st
  intro st2 e hr
  rcases hlk : alookup sto (stepIdemKey step) with _ | ⟨status, r⟩
  · simp only [runGroupMember, hlk] at hr
    have h2 := groupMemberFresh_no_write ex step (stepIdemKey step) _ st2 e hr
    simpa [emit, ctxWrites_append, ctxWrites, ctxWriteP, List.filterMap_cons]
      using h2
  · cases status with
    | completed =>
      simp only [runGroupMember, hlk, emit] at hr
      injection hr with h1 h2
      simp at h2
    | pending_approval =>
      simp only [runGroupMember, hlk, emit] at hr
      injection hr with h1 h2
      subst h1
      simp [ctxWrites_append, ctxWrites, ctxWriteP, List.filterMap_cons]
    | compensated =>
      simp only [runGroupMember, hlk] at hr
      have h2 := groupMemberFresh_no_write ex step (stepIdemKey step) _ st2 e hr
      simpa [emit, ctxWrites_append, ctxWrites, ctxWriteP, List.filterMap_cons]
        using h2



/-- Claim C8: in every run — sequential steps and concurrent-group
members alike — a step's result is written into the context's results map
only after its checkpoint has been saved as completed (fresh execution) or
loaded back as completed (idempotent replay): scanning any run's trace,
every context-write event is preceded by completion evidence for its key
and value (first conjunct); and a step that fails or pauses for approval
never writes a result at all (remaining conjuncts: an errored or pending
sequential step and a rejected group member add no context-write event). -/
theorem c8_result_after_checkpoint :
    (∀ (ex : Executor) (dryRunFlag : Bool) (scheds : List (List Nat)) (st : EngineState),
      st.trace = [] →
      writesOkFrom [] ((run ex dryRunFlag scheds st).1).trace = true) ∧
    (∀ (ex : Executor) (step : SagaStep) (st st2 : EngineState) (e : SagaError),
      runStepSeq ex step st = (st2, SeqResult.errored e) →
      ctxWrites st2.trace = ctxWrites st.trace) ∧
    (∀ (ex : Executor) (step : SagaStep) (st st2 : EngineState),
      runStepSeq ex step st = (st2, SeqResult.pending) →
      ctxWrites st2.trace = ctxWrites st.trace) ∧
    (∀ (ex : Executor) (step : SagaStep) (st st2 : EngineState) (e : SagaError),
      runGroupMember ex step st = (st2, Except.error e) →
      ctxWrites st2.trace = ctxWrites st.trace) := by
  refine ⟨?_, ?_, ?_, ?_⟩
  · intro ex dryRunFlag scheds st htr
    cases dryRunFlag with
    | true => simp [run, htr, writesOkFrom]
    | false =>
      simp only [run, Bool.false_eq_true, if_false]
      exact runEntries_pthru ex ex.definition scheds [] st [] (by rw [htr]; rfl)
  · intro ex step st st2 e hr
    exact (runStepSeq_no_write ex step st).1 st2 e hr
  · intro ex step st st2 hr
    exact (runStepSeq_no_write ex step st).2 st2 hr
  · intro ex step st st2 e hr
    exact runGroupMember_no_write ex step st st2 e hr

theorem c8_result_after_checkpoint_witness :
    writesOkFrom [] ((run ⟨[Entry.single (mkOkStep ("A") w1),
        Entry.single (mkFailStep ("B") boom)], 1, 1, 1, 1⟩ false []
        ⟨[], [], []⟩).1).trace = true ∧
    ctxWrites ((runStepSeq ⟨[Entry.single (mkFailStep ("B") boom)], 1, 1, 1, 1⟩
        (mkFailStep ("B") boom) ⟨[], [], []⟩).1).trace = ctxWrites ([] : List Event) ∧
    ctxWrites ((runStepSeq ⟨[Entry.single (mkPendStep ("P"))], 1, 1, 1, 1⟩
        (mkPendStep ("P")) ⟨[], [], []⟩).1).trace = ctxWrites ([] : List Event) ∧
    ctxWrites ((runGroupMember ⟨[Entry.group [mkFailStep ("G") boom]], 1, 1, 1, 1⟩
        (mkFailStep ("G") boom) ⟨[], [], []⟩).1).trace = ctxWrites ([] : List Event) := by
  have h := c8_result_after_checkpoint
  refine ⟨h.1 _ false [] ⟨[], [], []⟩ rfl, ?_, ?_, ?_⟩
  · exact h.2.1 ⟨[Entry.single (mkFailStep ("B") boom)], 1, 1, 1, 1⟩
      (mkFailStep ("B") boom) ⟨[], [], []⟩ _ boom (by rfl)
  · exact h.2.2.1 ⟨[Entry.single (mkPendStep ("P"))], 1, 1, 1, 1⟩
      (mkPendStep ("P")) ⟨[], [], []⟩ _ (by rfl)
  · exact h.2.2.2 ⟨[Entry.group [mkFailStep ("G") boom]], 1, 1, 1, 1⟩
      (mkFailStep ("G") boom) ⟨[], [], []⟩ _ boom (by rfl)

end SagaExec
